import Mathlib

/-!
A shallow embedding, in Lean 4, of the DPN+MATV engine of the venom
repository: the metrics aggregator (`aggregator` package), the threshold
resolver/validator (`reporting/thresholds.go`), and the dynamic path
normalizer (`executors/http` DPN).  Go `float64` values are modelled as
rationals (`ℚ`); Go maps `map[string]T` are modelled as association lists
`List (String × T)` whose list order stands for the (in Go, unspecified)
iteration order.  Strings are treated as ASCII character sequences, which
covers every path, metric name and pattern appearing in the repository.
-/

namespace Venom

/-! ### Definitions: the shallow embedding of the program -/

/-- Lookup of a key in an association list (model of a Go map read). -/
def lookupA {β : Type} (vs : List (String × β)) (k : String) : Option β :=
  match vs.find? (fun p => p.1 = k) with
  | some p => some p.2
  | none => none

/-- Model of `getFloat64(values, key, default)` from the aggregator. -/
def getF (vs : List (String × ℚ)) (k : String) (d : ℚ) : ℚ :=
  match lookupA vs k with
  | some v => v
  | none => d

/-- Whether a key is present (model of the `, ok :=` map read). -/
def hasKey {β : Type} (vs : List (String × β)) (k : String) : Bool :=
  (lookupA vs k).isSome

/-- Model of a Go map write `values[k] = x`: replace the first binding of
`k`, or append a new binding when `k` is absent. -/
def setA {β : Type} (vs : List (String × β)) (k : String) (x : β) :
    List (String × β) :=
  match vs with
  | [] => [(k, x)]
  | (k', v) :: rest =>
    if k' = k then (k', x) :: rest else (k', v) :: setA rest k x

/-- Model of `aggregator.Metric`: a kind tag and a value map. -/
structure Metric where
  type : String
  values : List (String × ℚ)
  deriving DecidableEq, Repr

/-- Model of `aggregator.Config`. -/
structure AggConfig where
  maxEndpoints : ℕ
  noBucket : Bool
  mergePercentiles : String
  deriving DecidableEq, Repr

/-- Model of `math.MaxFloat64`, the default used for missing `min` values. -/
def maxFloat64 : ℚ := 2 ^ 1024 - 2 ^ 971

/-- The four percentile keys handled by `mergeTrendMetric`. -/
def percentileKeys : List String := ["p(50)", "p(90)", "p(95)", "p(99)"]

/-- The loop body of the percentile merge of `mergeTrendMetric`: when the
key is present on both sides, store the weighted combination. -/
def percStep (sv : List (String × ℚ)) (targetCount sourceCount totalCount : ℚ)
    (acc : List (String × ℚ)) (p : String) : List (String × ℚ) :=
  if hasKey acc p && hasKey sv p then
    setA acc p ((getF acc p 0 * targetCount + getF sv p 0 * sourceCount) / totalCount)
  else acc

/-- Model of `mergeTrendMetric` (acting on the two value maps; the
`mergeStrategy` argument is ignored by the Go body as well). -/
def mergeTrendValues (tv sv : List (String × ℚ)) : List (String × ℚ) :=
  let targetCount := getF tv "count" 0
  let sourceCount := getF sv "count" 0
  let totalCount := targetCount + sourceCount
  if totalCount = 0 then tv
  else
    let tv1 := setA tv "count" totalCount
    let tv2 := setA tv1 "min" (min (getF tv1 "min" maxFloat64) (getF sv "min" maxFloat64))
    let tv3 := setA tv2 "max" (max (getF tv2 "max" 0) (getF sv "max" 0))
    let targetAvg := getF tv3 "avg" 0
    let sourceAvg := getF sv "avg" 0
    let tv4 := setA tv3 "avg" ((targetAvg * targetCount + sourceAvg * sourceCount) / totalCount)
    let tv5 := percentileKeys.foldl (percStep sv targetCount sourceCount totalCount) tv4
    setA tv5 "rate" (totalCount / getF tv5 "duration" 1)

/-- Model of `mergeCounterMetric` (acting on the value maps). -/
def mergeCounterValues (tv sv : List (String × ℚ)) : List (String × ℚ) :=
  let targetCount := getF tv "count" 0
  let sourceCount := getF sv "count" 0
  let tv1 := setA tv "count" (targetCount + sourceCount)
  let totalCount := targetCount + sourceCount
  if 0 < totalCount then
    setA tv1 "rate" (totalCount / getF tv1 "duration" 1)
  else tv1

/-- Model of `mergeRateMetric` (acting on the value maps). -/
def mergeRateValues (tv sv : List (String × ℚ)) : List (String × ℚ) :=
  let targetPasses := getF tv "passes" 0
  let sourcePasses := getF sv "passes" 0
  let targetFails := getF tv "fails" 0
  let sourceFails := getF sv "fails" 0
  let tv1 := setA tv "passes" (targetPasses + sourcePasses)
  let tv2 := setA tv1 "fails" (targetFails + sourceFails)
  let total := (targetPasses + sourcePasses) + (targetFails + sourceFails)
  if 0 < total then setA tv2 "value" ((targetPasses + sourcePasses) / total)
  else tv2

/-- Model of `mergeGaugeMetric`: fold over the source bindings, taking the
pointwise max with present target keys and copying absent ones. -/
def mergeGaugeValues (tv sv : List (String × ℚ)) : List (String × ℚ) :=
  sv.foldl
    (fun acc p =>
      match lookupA acc p.1 with
      | some t => setA acc p.1 (max t p.2)
      | none => setA acc p.1 p.2)
    tv

/-- Model of `mergeMetric`: dispatch on the target's kind; a kind mismatch
is a no-op. -/
def mergeMetric (target source : Metric) : Metric :=
  if target.type ≠ source.type then target
  else if target.type = "trend" then
    { target with values := mergeTrendValues target.values source.values }
  else if target.type = "counter" then
    { target with values := mergeCounterValues target.values source.values }
  else if target.type = "rate" then
    { target with values := mergeRateValues target.values source.values }
  else if target.type = "gauge" then
    { target with values := mergeGaugeValues target.values source.values }
  else target

/-- Model of `cloneMetric` (a fresh value map with the same bindings). -/
def cloneMetric (m : Metric) : Metric := { type := m.type, values := m.values }

/-- Model of `strings.HasPrefix(s, p)` on character lists. -/
def goStartsWith (s p : String) : Bool := p.toList.isPrefixOf s.toList

/-- The canonical global-metric names of `aggregator.isGlobalMetric`. -/
def globalMetricNames : List String :=
  ["checks", "data_received", "data_sent", "http_req_duration",
   "http_req_failed", "http_reqs", "iterations", "vus", "vus_max",
   "http_req_blocked", "http_req_connecting", "http_req_sending",
   "http_req_waiting", "http_req_receiving", "http_req_tls_handshaking"]

/-- Model of `aggregator.isGlobalMetric`: the name equals a canonical global
metric, or has `<global>_` as a prefix. -/
def isGlobalMetric (name : String) : Bool :=
  globalMetricNames.any (fun g => name = g || goStartsWith name (g ++ "_"))

/-- Model of `normalizeEndpoint` (the identity in the source). -/
def normalizeEndpoint (endpoint : String) : String := endpoint

/-- One step of the global-metric accumulation of `addGlobalMetrics`. -/
def globStep (acc : List (String × Metric)) (entry : String × Metric) :
    List (String × Metric) :=
  if isGlobalMetric entry.1 then
    match lookupA acc entry.1 with
    | some existing => setA acc entry.1 (mergeMetric existing entry.2)
    | none => acc ++ [(entry.1, cloneMetric entry.2)]
  else acc

/-- The mutable state threaded through the endpoint loop of
`AggregateMetrics`: the `endpointMap`, the two counters, and the metrics
map being built (`result.Metrics` before global metrics are added). -/
structure AggState where
  endpointMap : List (String × String)
  endpointCount : ℕ
  endpointsBucketed : ℕ
  resultMetrics : List (String × Metric)
  deriving Repr

/-- The empty starting state of `AggregateMetrics`. -/
def AggState.init : AggState :=
  { endpointMap := [], endpointCount := 0, endpointsBucketed := 0,
    resultMetrics := [] }

/-- The cardinality-control step of `AggregateMetrics` for one non-global
metric occurrence: decide the key under which the sample is stored
(`none` = dropped), updating `endpointMap` and the counters.  `hash8`
stands for `fmt.Sprintf("%x", md5.Sum(...))[:8]`; every theorem below
holds for an arbitrary hash function. -/
def routeEndpoint (hash8 : String → String) (cfg : AggConfig) (st : AggState)
    (metricName : String) : Option String × AggState :=
  let normalizedName := normalizeEndpoint metricName
  if cfg.maxEndpoints ≤ st.endpointCount then
    if cfg.noBucket then (none, st)
    else (some "other", { st with endpointsBucketed := st.endpointsBucketed + 1 })
  else
    let nn :=
      match lookupA st.endpointMap normalizedName with
      | some existingOriginal =>
        if existingOriginal ≠ metricName then
          normalizedName ++ "_" ++ hash8 metricName
        else normalizedName
      | none => normalizedName
    (some nn,
     { st with endpointMap := setA st.endpointMap nn metricName,
               endpointCount := st.endpointCount + 1 })

/-- One iteration of the endpoint loop of `AggregateMetrics`: skip global
metrics, route the name through cardinality control, then merge into (or
clone into) the result map. -/
def aggStep (hash8 : String → String) (cfg : AggConfig) (st : AggState)
    (entry : String × Metric) : AggState :=
  if isGlobalMetric entry.1 then st
  else
    let (routed, st1) := routeEndpoint hash8 cfg st entry.1
    match routed with
    | none => st1
    | some nn =>
      match lookupA st1.resultMetrics nn with
      | some existing =>
        { st1 with resultMetrics := setA st1.resultMetrics nn (mergeMetric existing entry.2) }
      | none =>
        { st1 with resultMetrics := st1.resultMetrics ++ [(nn, cloneMetric entry.2)] }

/-- A metric snapshot, reduced to its metrics map (the only part the
claims concern); the list order models Go's map iteration order. -/
def Snapshot : Type := List (String × Metric)

/-- The endpoint phase of `AggregateMetrics`: fold every metric of every
input snapshot through `aggStep`. -/
def aggregateEndpointPhase (hash8 : String → String) (cfg : AggConfig)
    (snaps : List Snapshot) : AggState :=
  snaps.foldl (fun st snap => snap.foldl (aggStep hash8 cfg) st) AggState.init

/-- The global-metric map collected by `addGlobalMetrics` over all
snapshots. -/
def collectGlobals (snaps : List Snapshot) : List (String × Metric) :=
  snaps.foldl (fun acc snap => snap.foldl globStep acc) []

/-- Model of `addGlobalMetrics`: merge the global metrics of all snapshots
into their own map, then write them into the result map. -/
def addGlobalMetrics (result : List (String × Metric))
    (snaps : List Snapshot) : List (String × Metric) :=
  (collectGlobals snaps).foldl (fun res entry => setA res entry.1 entry.2) result

/-- Model of `AggregateMetrics`, restricted to the metrics map it builds
(checks and timestamps are not the subject of any claim). -/
def AggregateMetrics (hash8 : String → String) (cfg : AggConfig)
    (snaps : List Snapshot) : List (String × Metric) :=
  addGlobalMetrics (aggregateEndpointPhase hash8 cfg snaps).resultMetrics snaps

/-- Model of `DurationThreshold`: a `time.Duration` in nanoseconds and an
optional per-threshold tolerance percentage. -/
structure DurationThreshold where
  value : ℤ
  tolerance : Option ℚ
  deriving DecidableEq, Repr

/-- Model of `RateThreshold`. -/
structure RateThreshold where
  value : ℚ
  tolerance : Option ℚ
  deriving DecidableEq, Repr

/-- Model of `ThresholdValues` (all fields optional pointers in Go). -/
structure ThresholdValues where
  p50 : Option DurationThreshold := none
  p90 : Option DurationThreshold := none
  p95 : Option DurationThreshold := none
  p99 : Option DurationThreshold := none
  avg : Option DurationThreshold := none
  max : Option DurationThreshold := none
  errorRate : Option RateThreshold := none
  rps : Option RateThreshold := none
  minSamples : Option ℤ := none
  deriving DecidableEq, Repr

/-- Model of `ThresholdOptions`. -/
structure ThresholdOptions where
  tolerancePercent : ℚ
  minSamples : ℤ
  softFail : Bool
  deriving DecidableEq, Repr

/-- Model of `ThresholdConfig`.  `groups` is the Go map together with an
iteration order: Go's `for ... range` order over a map is unspecified, so
the list order is the only faithful rendering of one particular run. -/
structure ThresholdConfig where
  defaults : ThresholdValues
  groups : List (String × ThresholdValues)
  endpoints : List (String × ThresholdValues)
  options : ThresholdOptions
  deriving DecidableEq, Repr

/-- Model of `ThresholdBreach`. -/
structure ThresholdBreach where
  endpoint : String
  metric : String
  value : ℚ
  threshold : ℚ
  unit : String
  severity : String
  sampleCount : ℤ
  deriving DecidableEq, Repr

/-- `.*` matching: try the rest of the pattern against every suffix. -/
def globStar (matchRest : List Char → Bool) : List Char → Bool
  | [] => matchRest []
  | c :: s => matchRest (c :: s) || globStar matchRest s

/-- Shell-style wildcard matching: `matchesPattern` converts `*` to the
anchored regex `.*`.  For patterns built from literal characters and `*`
(every pattern in the repository), that regex match is exactly glob
matching, modelled here directly. -/
def globMatch : List Char → List Char → Bool
  | [], s => s.isEmpty
  | '*' :: ps, s => globStar (globMatch ps) s
  | p :: ps, [] => false
  | p :: ps, c :: s => p = c && globMatch ps s

/-- Model of `matchesPattern`. -/
def matchesPattern (endpoint pattern : String) : Bool :=
  globMatch pattern.toList endpoint.toList

/-- `if override.X != nil { result.X = override.X }`, for one field. -/
def overrideField {α : Type} (base ov : Option α) : Option α :=
  match ov with
  | some x => some x
  | none => base

/-- Model of `mergeThresholdValues`: field-wise replace-if-set. -/
def mergeThresholdValues (base override : ThresholdValues) : ThresholdValues :=
  { p50 := overrideField base.p50 override.p50,
    p90 := overrideField base.p90 override.p90,
    p95 := overrideField base.p95 override.p95,
    p99 := overrideField base.p99 override.p99,
    avg := overrideField base.avg override.avg,
    max := overrideField base.max override.max,
    errorRate := overrideField base.errorRate override.errorRate,
    rps := overrideField base.rps override.rps,
    minSamples := overrideField base.minSamples override.minSamples }

/-- Model of `GetThresholdForEndpoint`: defaults, overlaid by the first
matching group pattern in iteration order, overlaid by the exact endpoint
entry. -/
def GetThresholdForEndpoint (tc : ThresholdConfig) (endpoint : String) :
    ThresholdValues :=
  let base := tc.defaults
  let afterGroups :=
    match tc.groups.find? (fun g => matchesPattern endpoint g.1) with
    | some g => mergeThresholdValues base g.2
    | none => base
  match lookupA tc.endpoints endpoint with
  | some endpointThresholds => mergeThresholdValues afterGroups endpointThresholds
  | none => afterGroups

/-- The prefixes that `isEndpointMetric` skips. -/
def systemMetricPrefixes : List String :=
  ["http_req_duration", "http_reqs", "http_req_failed", "iterations",
   "checks", "data_sent", "data_received", "vus", "vus_max"]

/-- Model of `isEndpointMetric`: a metric is an endpoint metric unless its
name starts with one of the nine system-metric prefixes. -/
def isEndpointMetric (metricName : String) : Bool :=
  !systemMetricPrefixes.any (fun sys => goStartsWith metricName sys)

/-- Model of `time.Duration.Milliseconds()`: nanoseconds divided by 10⁶
with Go's truncation toward zero. -/
def durMs (ns : ℤ) : ℤ := Int.tdiv ns 1000000

/-- Model of Go's `int64(f)` conversion of a `float64`: truncation toward
zero (the in-range case; no claim involves out-of-range counts). -/
def ratTrunc (q : ℚ) : ℤ := Int.tdiv q.num (q.den : ℤ)

/-- The six duration-threshold checks of `checkDurationThresholds`, in
source order: metric key and configured threshold. -/
def durationChecks (thresholds : ThresholdValues) :
    List (String × Option DurationThreshold) :=
  [("p(50)", thresholds.p50), ("p(90)", thresholds.p90),
   ("p(95)", thresholds.p95), ("p(99)", thresholds.p99),
   ("avg", thresholds.avg), ("max", thresholds.max)]

/-- The effective tolerance of a duration threshold: its own
`tolerance_percent` when set, the global option otherwise. -/
def durTolerance (opts : ThresholdOptions) (dt : DurationThreshold) : ℚ :=
  dt.tolerance.getD opts.tolerancePercent

/-- The breach record built by `checkDurationThresholds` for key `k`,
observed value `v` and configured threshold `dt`. -/
def durationBreach (opts : ThresholdOptions) (endpoint : String)
    (sampleCount : ℤ) (k : String) (dt : DurationThreshold) (v : ℚ) :
    ThresholdBreach :=
  { endpoint := endpoint, metric := k, value := v,
    threshold := (durMs dt.value : ℚ), unit := "ms",
    severity :=
      if v ≤ (durMs dt.value : ℚ) * (1 + durTolerance opts dt / 100 * (3 / 2))
      then "warning" else "error",
    sampleCount := sampleCount }

/-- One duration check of `checkDurationThresholds`: skip when the
threshold is unset or the value absent; otherwise breach iff the observed
value exceeds the tolerance-adjusted threshold, with severity `warning`
within 1.5× the tolerance headroom and `error` beyond. -/
def checkOneDuration (opts : ThresholdOptions) (endpoint : String)
    (metric : Metric) (sampleCount : ℤ)
    (check : String × Option DurationThreshold) : List ThresholdBreach :=
  match check.2 with
  | none => []
  | some dt =>
    match lookupA metric.values check.1 with
    | none => []
    | some value =>
      if (durMs dt.value : ℚ) * (1 + durTolerance opts dt / 100) < value then
        [durationBreach opts endpoint sampleCount check.1 dt value]
      else []

/-- Model of `checkDurationThresholds`. -/
def checkDurationThresholds (opts : ThresholdOptions) (endpoint : String)
    (metric : Metric) (thresholds : ThresholdValues) (sampleCount : ℤ) :
    List ThresholdBreach :=
  (durationChecks thresholds).flatMap
    (checkOneDuration opts endpoint metric sampleCount)

/-- Model of `checkRateThresholds`.  The error-rate branch reads `fails`
and `count` through `, ok := v.(int64)` type assertions; on JSON-decoded
snapshots every numeric value is a `float64`, so those assertions fail and
the observed error rate stays `0` — modelled accordingly. -/
def checkRateThresholds (opts : ThresholdOptions) (endpoint : String)
    (metric : Metric) (thresholds : ThresholdValues) (sampleCount : ℤ) :
    List ThresholdBreach :=
  let errBreaches :=
    match thresholds.errorRate with
    | none => []
    | some rt =>
      let errorRate : ℚ := 0
      let threshold := rt.value
      let tolerance := rt.tolerance.getD opts.tolerancePercent
      let effectiveThreshold := threshold * (1 + tolerance / 100)
      if effectiveThreshold < errorRate then
        [{ endpoint := endpoint, metric := "error_rate",
           value := errorRate * 100, threshold := threshold * 100,
           unit := "%",
           severity :=
             if errorRate ≤ threshold * (1 + tolerance / 100 * (3 / 2)) then "warning"
             else "error",
           sampleCount := sampleCount }]
      else []
  let rpsBreaches :=
    match thresholds.rps with
    | none => []
    | some rt =>
      match lookupA metric.values "rate" with
      | none => []
      | some rate =>
        let threshold := rt.value
        let tolerance := rt.tolerance.getD opts.tolerancePercent
        let effectiveThreshold := threshold * (1 + tolerance / 100)
        if effectiveThreshold < rate then
          [{ endpoint := endpoint, metric := "rps", value := rate,
             threshold := threshold, unit := "req/s",
             severity :=
               if rate ≤ threshold * (1 + tolerance / 100 * (3 / 2)) then "warning"
               else "error",
             sampleCount := sampleCount }]
        else []
  errBreaches ++ rpsBreaches

/-- The effective minimum-sample requirement of `ValidateThresholds`:
`Options.MinSamples`, defaulted to `100` when it is `0`. -/
def effectiveMinSamples (opts : ThresholdOptions) : ℤ :=
  if opts.minSamples = 0 then 100 else opts.minSamples

/-- The sample count `ValidateThresholds` reads from a metric: its
`count` value truncated to an integer, `0` when absent. -/
def sampleCountOf (metric : Metric) : ℤ :=
  match lookupA metric.values "count" with
  | some q => ratTrunc q
  | none => 0

/-- The breaches `ValidateThresholds` produces for one metrics-map entry:
skip non-endpoint metrics and metrics with too few samples, otherwise run
the duration and rate checks against the resolved thresholds. -/
def validateOne (tc : ThresholdConfig) (entry : String × Metric) :
    List ThresholdBreach :=
  if !isEndpointMetric entry.1 then []
  else
    let endpoint := entry.1
    let thresholds := GetThresholdForEndpoint tc endpoint
    let sampleCount := sampleCountOf entry.2
    if sampleCount < effectiveMinSamples tc.options then []
    else
      checkDurationThresholds tc.options endpoint entry.2 thresholds sampleCount ++
      checkRateThresholds tc.options endpoint entry.2 thresholds sampleCount

/-- Model of `ValidateThresholds` over a metrics map (list order models
Go's map iteration order). -/
def ValidateThresholds (tc : ThresholdConfig)
    (metrics : List (String × Metric)) : List ThresholdBreach :=
  metrics.flatMap (validateOne tc)

/-- Model of `strings.ToLower` (ASCII). -/
def goToLower (s : String) : String := (s.toList.map Char.toLower).asString

/-- Model of `strings.TrimSpace` (ASCII whitespace). -/
def goTrimSpace (s : String) : String :=
  (((s.toList.dropWhile Char.isWhitespace).reverse.dropWhile
      Char.isWhitespace).reverse).asString

/-- Model of `if idx := strings.Index(path, c); idx != -1 { path = path[:idx] }`:
keep everything before the first occurrence of `c`. -/
def cutBefore (c : Char) (s : String) : String :=
  (s.toList.takeWhile (fun x => x ≠ c)).asString

/-- Model of `strings.TrimSuffix(path, "/")`. -/
def trimSuffixSlash (s : String) : String :=
  match s.toList.reverse with
  | '/' :: rest => rest.reverse.asString
  | _ => s

/-- Model of `strings.Split(s, "/")` on character lists. -/
def splitChar (c : Char) : List Char → List (List Char)
  | [] => [[]]
  | x :: xs =>
    if x = c then [] :: splitChar c xs
    else
      match splitChar c xs with
      | t :: ts => (x :: t) :: ts
      | [] => [[x]]

/-- Model of `strings.Trim(s, string(c))` on character lists. -/
def trimChar (c : Char) (l : List Char) : List Char :=
  ((l.dropWhile (fun x => x = c)).reverse.dropWhile (fun x => x = c)).reverse

/-- Helper for the `_+` → `_` collapse: `prevU` records whether the
previous emitted character was an underscore being collapsed. -/
def collapseUAux : Bool → List Char → List Char
  | _, [] => []
  | prevU, c :: rest =>
    if c = '_' then
      if prevU then collapseUAux true rest
      else '_' :: collapseUAux true rest
    else c :: collapseUAux false rest

/-- Model of `regexp.MustCompile("_+").ReplaceAllString(result, "_")`. -/
def collapseU (l : List Char) : List Char := collapseUAux false l

/-- Model of `strings.ReplaceAll(path, "/", "_")` on character lists. -/
def replaceSlashes (l : List Char) : List Char :=
  l.map (fun c => if c = '/' then '_' else c)

/-- Model of `strings.Join(l, "_")`. -/
def joinU : List String → String
  | [] => ""
  | [t] => t
  | t :: rest => t ++ "_" ++ joinU rest

/-- Model of `trimExtIfAny`: strip from the last `.` when it sits at a
positive index within the last six characters. -/
def trimExtIfAny (s : String) : String :=
  let l := s.toList
  match l.reverse.findIdx? (fun c => c = '.') with
  | none => s
  | some j =>
    let i := l.length - 1 - j
    if 0 < i ∧ l.length - 6 ≤ i then (l.take i).asString else s

/-- `[a-z]`. -/
def isLowerAlpha (c : Char) : Bool := 'a' ≤ c && c ≤ 'z'

/-- `[A-Z]`. -/
def isUpperAlpha (c : Char) : Bool := 'A' ≤ c && c ≤ 'Z'

/-- `[A-Za-z]`. -/
def isAlphaC (c : Char) : Bool := isLowerAlpha c || isUpperAlpha c

/-- `[0-9]`. -/
def isDigitC (c : Char) : Bool := '0' ≤ c && c ≤ '9'

/-- `[0-9a-f]`. -/
def isLowerHex (c : Char) : Bool := isDigitC c || ('a' ≤ c && c ≤ 'f')

/-- `[A-Za-z0-9]`. -/
def isAlnumC (c : Char) : Bool := isAlphaC c || isDigitC c

/-- `^(api-)?v\d+([a-z0-9]+)?$` (`reVersion`): an optional `api-` prefix,
`v`, a digit, then lower-case alphanumerics. -/
def matchVersion (s : String) : Bool :=
  let l := if goStartsWith s "api-" then s.toList.drop 4 else s.toList
  match l with
  | 'v' :: rest =>
    (match rest with
     | [] => false
     | c :: _ => isDigitC c) && rest.all (fun c => isLowerAlpha c || isDigitC c)
  | _ => false

/-- `^\d{4}-\d{2}-\d{2}$` (`reDateVersion`). -/
def matchDateVersion (s : String) : Bool :=
  let l := s.toList
  l.length = 10 &&
    (l.enum.all fun p =>
      if p.1 = 4 || p.1 = 7 then p.2 = '-' else isDigitC p.2)

/-- `reUUID`: lower-case hyphenated UUID v1–5 with variant nibble. -/
def matchUUID (s : String) : Bool :=
  let l := s.toList
  l.length = 36 &&
    (l.enum.all fun p =>
      if p.1 = 8 || p.1 = 13 || p.1 = 18 || p.1 = 23 then p.2 = '-'
      else if p.1 = 14 then '1' ≤ p.2 && p.2 ≤ '5'
      else if p.1 = 19 then p.2 = '8' || p.2 = '9' || p.2 = 'a' || p.2 = 'b'
      else isLowerHex p.2)

/-- `^[0-9A-HJKMNP-TV-Z]{26}$` (`reULID`, Crockford base-32, upper case). -/
def matchULID (s : String) : Bool :=
  let crockford := fun (c : Char) =>
    isDigitC c || ('A' ≤ c && c ≤ 'H') || c = 'J' || c = 'K' ||
    ('M' ≤ c && c ≤ 'N') || ('P' ≤ c && c ≤ 'T') || ('V' ≤ c && c ≤ 'Z')
  s.toList.length = 26 && s.toList.all crockford

/-- `^[0-9A-Za-z]{27}$` (`reKSUID`). -/
def matchKSUID (s : String) : Bool :=
  s.toList.length = 27 && s.toList.all isAlnumC

/-- `^[0-9a-f]{24}$` (`reMongoID`). -/
def matchMongoID (s : String) : Bool :=
  s.toList.length = 24 && s.toList.all isLowerHex

/-- `^\d{6,}$` (`rePureDigits`). -/
def matchPureDigits (s : String) : Bool :=
  6 ≤ s.toList.length && s.toList.all isDigitC

/-- `^\d{10}(\d{3})?$` (`reTimestamp`). -/
def matchTimestamp (s : String) : Bool :=
  (s.toList.length = 10 || s.toList.length = 13) && s.toList.all isDigitC

/-- `^[0-9a-f]{12,}$` (`reHexyBlob`). -/
def matchHexyBlob (s : String) : Bool :=
  12 ≤ s.toList.length && s.toList.all isLowerHex

/-- `^[A-Za-z]+[-_]*\d+([A-Za-z0-9-_]+)?$` (`reResourceKey`): a maximal
letter run, a maximal `-`/`_` run, then a digit followed by characters of
`[A-Za-z0-9-_]`.  (The greedy runs are forced, so this deterministic scan
is equivalent to the backtracking regex.) -/
def matchResourceKey (s : String) : Bool :=
  let l := s.toList
  match l with
  | [] => false
  | c :: _ =>
    isAlphaC c &&
      (let afterLetters := l.dropWhile isAlphaC
       let afterSep := afterLetters.dropWhile (fun x => x = '-' || x = '_')
       match afterSep with
       | [] => false
       | d :: rest =>
         isDigitC d && rest.all (fun x => isAlnumC x || x = '-' || x = '_'))

/-- `^[a-z]{2}(-[A-Z]{2})?$` (`reLocale`). -/
def matchLocale (s : String) : Bool :=
  match s.toList with
  | [a, b] => isLowerAlpha a && isLowerAlpha b
  | [a, b, '-', d, e] =>
    isLowerAlpha a && isLowerAlpha b && isUpperAlpha d && isUpperAlpha e
  | _ => false

/-- `^{{\.([^}]*)}}$` (`reTemplateVar`). -/
def matchTemplateVar (s : String) : Bool :=
  let l := s.toList
  5 ≤ l.length && l.take 3 = ['{', '{', '.'] &&
    l.drop (l.length - 2) = ['}', '}'] &&
    ((l.drop 3).take (l.length - 5)).all (fun c => c ≠ '}')

/-- `^status\d{3}$`, the first keep-list pattern. -/
def matchStatusCode (s : String) : Bool :=
  let l := s.toList
  l.length = 9 && l.take 6 = "status".toList && (l.drop 6).all isDigitC

/-- The literal alternatives of the third keep-list pattern. -/
def wellKnownTokens : List String :=
  [".well-known", "openid-configuration", "oauth2", "healthz", "readyz",
   "livez", "metrics", "search", "bulk", "export", "jwks"]

/-- The keep list (`keepList`): any of the six patterns matches. -/
def matchKeepList (t : String) : Bool :=
  matchStatusCode t || t = "http2" || t = "ipv6" ||
    wellKnownTokens.contains t || t = "json" || t = "ndjson" || t = "csv" ||
    t = "xml" || matchLocale t

/-- Model of `normalizeTemplateVariable`. -/
def normalizeTemplateVariable (token : String) : String :=
  if matchTemplateVar token then "" else token

/-- Model of `isHTTPMethod`. -/
def isHTTPMethod (token : String) : Bool :=
  token = "get" || token = "post" || token = "put" || token = "patch" ||
    token = "delete" || token = "head" || token = "options"

/-- Model of `isIDLike`. -/
def isIDLike (token : String) : Bool :=
  matchUUID token || matchULID token || matchKSUID token ||
    matchMongoID token || matchPureDigits token || matchTimestamp token ||
    matchHexyBlob token || matchResourceKey token

/-- Model of `looksLikeID`: digit ratio ≥ 0.4 or at least two maximal
digit runs, for tokens of length ≥ 6.  The ratio test
`digitCount/len ≥ 0.4` is written integrally as `5·digitCount ≥ 2·len`,
which is the same predicate over exact arithmetic. -/
def looksLikeID (token : String) : Bool :=
  let l := token.toList
  if l.length < 6 then false
  else
    let stats := l.foldl
      (fun (acc : ℕ × ℕ × Bool) c =>
        if isDigitC c then
          (acc.1 + 1, if acc.2.2 then acc.2.1 else acc.2.1 + 1, true)
        else (acc.1, acc.2.1, false))
      (0, 0, false)
    (2 * l.length ≤ 5 * stats.1) || 2 ≤ stats.2.1

/-- The token-classification body of the `for i, token := range tokens`
loop of `ExtractSimpleEndpointWithState`: `none` means the token was
skipped (`continue`), `some t` that `t` was appended to `keptTokens`. -/
def classifyKeep (i : ℕ) (token : String) : Option String :=
  let t := normalizeTemplateVariable token
  if t = "" then none
  else if matchKeepList t then some t
  else if t = "me" || t = "self" || t = "current" then some t
  else if (t = "api" || t = "rest" || t = "graphql") && i ≤ 2 then none
  else if matchVersion t || matchDateVersion t then none
  else if isHTTPMethod t then none
  else if isIDLike t then none
  else if 6 ≤ t.length && looksLikeID t then none
  else some t

/-- The cleaned path: lower-cased, cut at `?`, `#`, `;`, and stripped of a
single trailing slash. -/
def cleanedPath (p : String) : String :=
  trimSuffixSlash (cutBefore ';' (cutBefore '#' (cutBefore '?' (goToLower p))))

/-- Tokenization: split on `/`, trim whitespace, drop empty parts. -/
def tokensOf (path : String) : List String :=
  ((splitChar '/' path.toList).map (fun l => goTrimSpace l.asString)).filter
    (fun t => t ≠ "")

/-- The kept tokens, in order. -/
def keptTokens (tokens : List String) : List String :=
  tokens.enum.filterMap (fun p => classifyKeep p.1 p.2)

/-- Template shaping: up to three tokens joined by `_`, otherwise the
first two and the last. -/
def shapeTokens (kept : List String) : String :=
  if kept.length ≤ 3 then joinU kept
  else kept.headD "" ++ "_" ++ kept.getD 1 "" ++ "_" ++ kept.getLastD ""

/-- Model of `DPNConfig`. -/
structure DPNConfig where
  maxEndpoints : ℕ
  cacheSize : ℕ
  deriving DecidableEq, Repr

/-- `DefaultDPNConfig` with `VENOM_MAX_ENDPOINTS` unset: 5000 endpoints,
cache size 8192. -/
def DefaultDPNConfig : DPNConfig := { maxEndpoints := 5000, cacheSize := 8192 }

/-- Model of `DPNState`. -/
structure DPNState where
  cache : List (String × String)
  endpointCollisions : List (String × String)
  endpointCount : ℕ
  endpointsBucketed : ℕ
  config : DPNConfig
  deriving Repr

/-- Model of `NewDPNState(nil)`: a fresh state with the default config. -/
def NewDPNState : DPNState :=
  { cache := [], endpointCollisions := [], endpointCount := 0,
    endpointsBucketed := 0, config := DefaultDPNConfig }

/-- Model of `handleCollisionsAndCardinalityWithState`. -/
def handleCollisionsAndCardinalityWithState (hash8 : String → String)
    (normalized original : String) (st : DPNState) : String × DPNState :=
  if st.config.maxEndpoints ≤ st.endpointCount then
    ("other", { st with endpointsBucketed := st.endpointsBucketed + 1 })
  else
    match lookupA st.endpointCollisions normalized with
    | some existingOriginal =>
      if existingOriginal ≠ original then
        let normalizedWithHash := normalized ++ "_" ++ hash8 original
        (normalizedWithHash,
         { st with
             endpointCollisions :=
               setA st.endpointCollisions normalizedWithHash original,
             endpointCount := st.endpointCount + 1 })
      else
        (normalized,
         { st with
             endpointCollisions := setA st.endpointCollisions normalized original,
             endpointCount := st.endpointCount + 1 })
    | none =>
      (normalized,
       { st with
           endpointCollisions := setA st.endpointCollisions normalized original,
           endpointCount := st.endpointCount + 1 })

/-- The classification/shaping/trimming part of
`ExtractSimpleEndpointWithState`, from the cleaned path to the template
passed to the collision handler. -/
def rawTemplate (path : String) : String :=
  let tokens := tokensOf path
  let kept := keptTokens tokens
  let r0 := shapeTokens kept
  let r1 := if kept ≠ [] then trimExtIfAny r0 else r0
  let r2 := (trimChar '_' (collapseU r1.toList)).asString
  let r3 := if 80 < r2.length then (r2.toList.take 80).asString else r2
  if r3 = "" then (trimChar '_' (replaceSlashes path.toList)).asString
  else r3

/-- Model of `ExtractSimpleEndpointWithState`.  `hash8` stands for the
md5-prefix collision suffix; every theorem holds for an arbitrary hash. -/
def ExtractSimpleEndpointWithState (hash8 : String → String) (p : String)
    (st : DPNState) : String × DPNState :=
  match lookupA st.cache p with
  | some cached => (cached, st)
  | none =>
    let path := cleanedPath p
    if path = "" || path = "/" then ("root", st)
    else if tokensOf path = [] then ("root", st)
    else
      let (result, st1) :=
        handleCollisionsAndCardinalityWithState hash8 (rawTemplate path) path st
      let st2 :=
        if st1.config.cacheSize ≤ st1.cache.length then
          { st1 with cache := [(path, result)] }
        else { st1 with cache := setA st1.cache path result }
      (result, st2)

/-- Model of the stateless `ExtractSimpleEndpoint`: a fresh state per
call. -/
def ExtractSimpleEndpoint (hash8 : String → String) (p : String) : String :=
  (ExtractSimpleEndpointWithState hash8 p NewDPNState).1

/-- A placeholder hash for closed evaluations; the fresh-state calls in
the closed theorems below never reach the collision branch, so its value
is irrelevant to them. -/
def dummyHash8 : String → String := fun _ => ""

/-- The spec's example target `{count:2, avg:100, p95:140}`. -/
def exTrendTarget : List (String × ℚ) := [("count", 2), ("avg", 100), ("p(95)", 140)]

/-- The spec's example source `{count:3, avg:200, p95:280}`. -/
def exTrendSource : List (String × ℚ) := [("count", 3), ("avg", 200), ("p(95)", 280)]

/-- Target value map for the C1 witness. -/
def wTrendTarget : List (String × ℚ) :=
  [("count", 2), ("min", 50), ("max", 150), ("avg", 100), ("p(50)", 110), ("p(90)", 140)]

/-- Source value map for the C1 witness. -/
def wTrendSource : List (String × ℚ) :=
  [("count", 3), ("min", 100), ("max", 300), ("avg", 200), ("p(90)", 280), ("p(99)", 400)]

/-- A rate target with zero totals but a nonzero stored `value`. -/
def exRateTarget : List (String × ℚ) :=
  [("passes", 0), ("fails", 0), ("value", 1 / 2)]

/-- A rate source with zero totals. -/
def exRateSource : List (String × ℚ) := [("passes", 0), ("fails", 0)]

/-- Witness rate target (the repository's own test values). -/
def wRateTarget : List (String × ℚ) :=
  [("passes", 8), ("fails", 2), ("value", 4 / 5)]

/-- Witness rate source (the repository's own test values). -/
def wRateSource : List (String × ℚ) :=
  [("passes", 9), ("fails", 1), ("value", 9 / 10)]

/-- The set of keys of a metrics map. -/
def metricKeys (l : List (String × Metric)) : Finset String :=
  (l.map Prod.fst).toFinset

/-- The invariant carried through the endpoint loop: the number of
distinct non-`"other"` keys is bounded by `endpointCount`, which never
exceeds the ceiling. -/
def AggInv (cfg : AggConfig) (st : AggState) : Prop :=
  ((metricKeys st.resultMetrics).erase "other").card ≤ st.endpointCount ∧
    st.endpointCount ≤ cfg.maxEndpoints

/-- The aggregator configuration of the C10 scenario: ceiling 2,
bucketing on. -/
def cfgC10 : AggConfig :=
  { maxEndpoints := 2, noBucket := false, mergePercentiles := "weighted" }

/-- A plain trend metric. -/
def mC10 : Metric :=
  { type := "trend",
    values := [("count", 1), ("avg", 100), ("min", 100), ("max", 100)] }

/-- A snapshot holding the single endpoint metric `users_profile`. -/
def snapC10 : Snapshot := [("users_profile", mC10)]

/-- The pure normalization pipeline computed by
`ExtractSimpleEndpointWithState` on a fresh state (where the cache is
empty and the collision handler returns its input unchanged). -/
def extractCore (p : String) : String :=
  let path := cleanedPath p
  if path = "" || path = "/" then "root"
  else if tokensOf path = [] then "root"
  else rawTemplate path

/-- The spec example's options: 10 % tolerance. -/
def optsC3 : ThresholdOptions :=
  { tolerancePercent := 10, minSamples := 100, softFail := false }

/-- The spec example's p95 threshold: 300 ms, no own tolerance. -/
def dtC3 : DurationThreshold := { value := 300000000, tolerance := none }

/-- Threshold values with only p95 configured. -/
def thC3 : ThresholdValues := { p95 := some dtC3 }

/-- The spec example's observed metric: `count = 150`, `p(95) = 400`. -/
def mC3 : Metric := { type := "trend", values := [("count", 150), ("p(95)", 400)] }

/-- A 100 ms p95 group threshold. -/
def tvC5a : ThresholdValues := { p95 := some { value := 100000000, tolerance := none } }

/-- A 200 ms p95 group threshold. -/
def tvC5b : ThresholdValues := { p95 := some { value := 200000000, tolerance := none } }

/-- A config whose groups map is iterated with pattern `a*` first. -/
def cfgC5a : ThresholdConfig :=
  { defaults := {}, groups := [("a*", tvC5a), ("ab*", tvC5b)], endpoints := [],
    options := { tolerancePercent := 10, minSamples := 100, softFail := false } }

/-- The same groups map iterated with pattern `ab*` first. -/
def cfgC5b : ThresholdConfig :=
  { defaults := {}, groups := [("ab*", tvC5b), ("a*", tvC5a)], endpoints := [],
    options := { tolerancePercent := 10, minSamples := 100, softFail := false } }

/-- The options shared by the C7/C9 scenarios: tolerance 10 %, global
minimum 10 samples. -/
def optsMin10 : ThresholdOptions :=
  { tolerancePercent := 10, minSamples := 10, softFail := false }

/-- A 100 ms duration threshold. -/
def dt100ms : DurationThreshold := { value := 100000000, tolerance := none }

/-- C7's config: per-endpoint `min_samples` override of 1000 together
with a p95 threshold of 100 ms. -/
def tcC7 : ThresholdConfig :=
  { defaults := {}, groups := [],
    endpoints := [("users_profile",
      { p95 := some dt100ms, minSamples := some 1000 })],
    options := optsMin10 }

/-- A metric with 50 samples and p(95) = 400 ms. -/
def mC7 : Metric := { type := "trend", values := [("count", 50), ("p(95)", 400)] }

/-- A metric with only 5 samples. -/
def mC7low : Metric := { type := "trend", values := [("count", 5), ("p(95)", 400)] }

/-- C9's config: a default p95 threshold of 100 ms. -/
def tcC9 : ThresholdConfig :=
  { defaults := { p95 := some dt100ms }, groups := [], endpoints := [],
    options := optsMin10 }

/-- A metric with 150 samples and p(95) = 400 ms. -/
def mC9 : Metric := { type := "trend", values := [("count", 150), ("p(95)", 400)] }

/-! ### Theorems -/

theorem lookupA_setA_self {β : Type} (vs : List (String × β)) (k : String)
    (x : β) : lookupA (setA vs k x) k = some x := by
  induction vs with
  | nil => simp [setA, lookupA, List.find?]
  | cons p rest ih =>
    obtain ⟨k', v⟩ := p
    by_cases h : k' = k
    · simp [setA, h, lookupA, List.find?]
    · simp only [setA, if_neg h]
      simpa [lookupA, List.find?, h] using ih

theorem lookupA_setA_ne {β : Type} (vs : List (String × β)) (k k' : String)
    (x : β) (h : k ≠ k') : lookupA (setA vs k x) k' = lookupA vs k' := by
  induction vs with
  | nil => simp [setA, lookupA, List.find?, h]
  | cons p rest ih =>
    obtain ⟨k₀, v⟩ := p
    by_cases h₀ : k₀ = k
    · subst h₀
      simp [setA, lookupA, List.find?, h]
    · simp only [setA, if_neg h₀]
      by_cases h₁ : k₀ = k'
      · simp [lookupA, List.find?, h₁]
      · simpa [lookupA, List.find?, h₁] using ih

theorem getF_setA_self (vs : List (String × ℚ)) (k : String) (x : ℚ)
    (d : ℚ) : getF (setA vs k x) k d = x := by
  simp [getF, lookupA_setA_self]

theorem getF_setA_ne (vs : List (String × ℚ)) (k k' : String) (x : ℚ)
    (d : ℚ) (h : k ≠ k') : getF (setA vs k x) k' d = getF vs k' d := by
  simp [getF, lookupA_setA_ne vs k k' x h]

theorem hasKey_setA_ne {β : Type} (vs : List (String × β)) (k k' : String)
    (x : β) (h : k ≠ k') : hasKey (setA vs k x) k' = hasKey vs k' := by
  simp [hasKey, lookupA_setA_ne vs k k' x h]

theorem hasKey_setA_self {β : Type} (vs : List (String × β)) (k : String)
    (x : β) : hasKey (setA vs k x) k = true := by
  simp [hasKey, lookupA_setA_self]

/-- Round trip between a string and its character list. -/
theorem asString_toList (s : String) : s.toList.asString = s := by
  cases s
  rfl

theorem getF_eq_of_hasKey (vs : List (String × ℚ)) (k : String)
    (h : hasKey vs k = true) (d d' : ℚ) : getF vs k d = getF vs k d' := by
  unfold hasKey at h
  unfold getF
  cases hl : lookupA vs k with
  | some v => rfl
  | none => rw [hl] at h; simp at h

theorem getF_percStep_ne (sv : List (String × ℚ)) (tc sc n : ℚ)
    (acc : List (String × ℚ)) (q p : String) (d : ℚ) (h : q ≠ p) :
    getF (percStep sv tc sc n acc q) p d = getF acc p d := by
  unfold percStep
  split
  · exact getF_setA_ne acc q p _ d h
  · rfl

theorem hasKey_percStep_ne (sv : List (String × ℚ)) (tc sc n : ℚ)
    (acc : List (String × ℚ)) (q p : String) (h : q ≠ p) :
    hasKey (percStep sv tc sc n acc q) p = hasKey acc p := by
  unfold percStep
  split
  · exact hasKey_setA_ne acc q p _ h
  · rfl

theorem hasKey_percStep_self (sv : List (String × ℚ)) (tc sc n : ℚ)
    (acc : List (String × ℚ)) (p : String) :
    hasKey (percStep sv tc sc n acc p) p = hasKey acc p := by
  unfold percStep
  split
  · next hcond =>
    rw [hasKey_setA_self]
    rw [Bool.and_eq_true] at hcond
    exact hcond.1.symm
  · rfl

theorem percStep_both (sv : List (String × ℚ)) (tc sc n : ℚ)
    (acc : List (String × ℚ)) (p : String)
    (h1 : hasKey acc p = true) (h2 : hasKey sv p = true) :
    getF (percStep sv tc sc n acc p) p 0 =
      (getF acc p 0 * tc + getF sv p 0 * sc) / n := by
  unfold percStep
  rw [h1, h2]
  simp only [Bool.and_self, if_pos]
  exact getF_setA_self acc p _ 0

theorem percStep_src_absent (sv : List (String × ℚ)) (tc sc n : ℚ)
    (acc : List (String × ℚ)) (p : String) (h : hasKey sv p = false) :
    percStep sv tc sc n acc p = acc := by
  unfold percStep
  rw [h]
  simp

theorem mergeTrend_count (tv sv : List (String × ℚ))
    (hn : getF tv "count" 0 + getF sv "count" 0 ≠ 0) :
    getF (mergeTrendValues tv sv) "count" 0 =
      getF tv "count" 0 + getF sv "count" 0 := by
  simp only [mergeTrendValues]
  rw [if_neg hn]
  rw [getF_setA_ne _ "rate" "count" _ _ (by decide)]
  simp only [percentileKeys, List.foldl_cons, List.foldl_nil]
  rw [getF_percStep_ne _ _ _ _ _ "p(99)" "count" _ (by decide),
    getF_percStep_ne _ _ _ _ _ "p(95)" "count" _ (by decide),
    getF_percStep_ne _ _ _ _ _ "p(90)" "count" _ (by decide),
    getF_percStep_ne _ _ _ _ _ "p(50)" "count" _ (by decide),
    getF_setA_ne _ "avg" "count" _ _ (by decide),
    getF_setA_ne _ "max" "count" _ _ (by decide),
    getF_setA_ne _ "min" "count" _ _ (by decide),
    getF_setA_self]

theorem mergeTrend_min (tv sv : List (String × ℚ))
    (hn : getF tv "count" 0 + getF sv "count" 0 ≠ 0)
    (h1 : hasKey tv "min" = true) (h2 : hasKey sv "min" = true) :
    getF (mergeTrendValues tv sv) "min" 0 =
      min (getF tv "min" 0) (getF sv "min" 0) := by
  simp only [mergeTrendValues]
  rw [if_neg hn]
  rw [getF_setA_ne _ "rate" "min" _ _ (by decide)]
  simp only [percentileKeys, List.foldl_cons, List.foldl_nil]
  rw [getF_percStep_ne _ _ _ _ _ "p(99)" "min" _ (by decide),
    getF_percStep_ne _ _ _ _ _ "p(95)" "min" _ (by decide),
    getF_percStep_ne _ _ _ _ _ "p(90)" "min" _ (by decide),
    getF_percStep_ne _ _ _ _ _ "p(50)" "min" _ (by decide),
    getF_setA_ne _ "avg" "min" _ _ (by decide),
    getF_setA_ne _ "max" "min" _ _ (by decide),
    getF_setA_self,
    getF_setA_ne _ "count" "min" _ _ (by decide),
    getF_eq_of_hasKey tv "min" h1 maxFloat64 0,
    getF_eq_of_hasKey sv "min" h2 maxFloat64 0]

theorem mergeTrend_max (tv sv : List (String × ℚ))
    (hn : getF tv "count" 0 + getF sv "count" 0 ≠ 0)
    (h1 : hasKey tv "max" = true) (h2 : hasKey sv "max" = true) :
    getF (mergeTrendValues tv sv) "max" 0 =
      max (getF tv "max" 0) (getF sv "max" 0) := by
  simp only [mergeTrendValues]
  rw [if_neg hn]
  rw [getF_setA_ne _ "rate" "max" _ _ (by decide)]
  simp only [percentileKeys, List.foldl_cons, List.foldl_nil]
  rw [getF_percStep_ne _ _ _ _ _ "p(99)" "max" _ (by decide),
    getF_percStep_ne _ _ _ _ _ "p(95)" "max" _ (by decide),
    getF_percStep_ne _ _ _ _ _ "p(90)" "max" _ (by decide),
    getF_percStep_ne _ _ _ _ _ "p(50)" "max" _ (by decide),
    getF_setA_ne _ "avg" "max" _ _ (by decide),
    getF_setA_self,
    getF_setA_ne _ "min" "max" _ _ (by decide),
    getF_setA_ne _ "count" "max" _ _ (by decide)]

theorem hasKey_quad (tv : List (String × ℚ)) (n mn mx av : ℚ) (p : String)
    (h1 : "count" ≠ p) (h2 : "min" ≠ p) (h3 : "max" ≠ p) (h4 : "avg" ≠ p) :
    hasKey (setA (setA (setA (setA tv "count" n) "min" mn) "max" mx) "avg" av) p =
      hasKey tv p := by
  rw [hasKey_setA_ne _ "avg" p _ h4, hasKey_setA_ne _ "max" p _ h3,
    hasKey_setA_ne _ "min" p _ h2, hasKey_setA_ne _ "count" p _ h1]

theorem getF_quad (tv : List (String × ℚ)) (n mn mx av : ℚ) (p : String)
    (d : ℚ)
    (h1 : "count" ≠ p) (h2 : "min" ≠ p) (h3 : "max" ≠ p) (h4 : "avg" ≠ p) :
    getF (setA (setA (setA (setA tv "count" n) "min" mn) "max" mx) "avg" av) p d =
      getF tv p d := by
  rw [getF_setA_ne _ "avg" p _ _ h4, getF_setA_ne _ "max" p _ _ h3,
    getF_setA_ne _ "min" p _ _ h2, getF_setA_ne _ "count" p _ _ h1]

theorem mergeTrend_avg (tv sv : List (String × ℚ))
    (hn : getF tv "count" 0 + getF sv "count" 0 ≠ 0) :
    getF (mergeTrendValues tv sv) "avg" 0 =
      (getF tv "avg" 0 * getF tv "count" 0 + getF sv "avg" 0 * getF sv "count" 0) /
        (getF tv "count" 0 + getF sv "count" 0) := by
  simp only [mergeTrendValues]
  rw [if_neg hn]
  rw [getF_setA_ne _ "rate" "avg" _ _ (by decide)]
  simp only [percentileKeys, List.foldl_cons, List.foldl_nil]
  rw [getF_percStep_ne _ _ _ _ _ "p(99)" "avg" _ (by decide),
    getF_percStep_ne _ _ _ _ _ "p(95)" "avg" _ (by decide),
    getF_percStep_ne _ _ _ _ _ "p(90)" "avg" _ (by decide),
    getF_percStep_ne _ _ _ _ _ "p(50)" "avg" _ (by decide),
    getF_setA_self,
    getF_setA_ne _ "max" "avg" _ _ (by decide),
    getF_setA_ne _ "min" "avg" _ _ (by decide),
    getF_setA_ne _ "count" "avg" _ _ (by decide)]

theorem mergeTrend_perc50 (tv sv : List (String × ℚ))
    (hn : getF tv "count" 0 + getF sv "count" 0 ≠ 0) :
    hasKey (mergeTrendValues tv sv) "p(50)" = hasKey tv "p(50)" ∧
    (hasKey tv "p(50)" = true → hasKey sv "p(50)" = true →
      getF (mergeTrendValues tv sv) "p(50)" 0 =
        (getF tv "p(50)" 0 * getF tv "count" 0 +
          getF sv "p(50)" 0 * getF sv "count" 0) /
          (getF tv "count" 0 + getF sv "count" 0)) ∧
    (hasKey sv "p(50)" = false →
      getF (mergeTrendValues tv sv) "p(50)" 0 = getF tv "p(50)" 0) := by
  refine ⟨?_, ?_, ?_⟩
  · simp only [mergeTrendValues]
    rw [if_neg hn]
    rw [hasKey_setA_ne _ "rate" "p(50)" _ (by decide)]
    simp only [percentileKeys, List.foldl_cons, List.foldl_nil]
    rw [hasKey_percStep_ne _ _ _ _ _ "p(99)" "p(50)" (by decide),
      hasKey_percStep_ne _ _ _ _ _ "p(95)" "p(50)" (by decide),
      hasKey_percStep_ne _ _ _ _ _ "p(90)" "p(50)" (by decide),
      hasKey_percStep_self,
      hasKey_quad _ _ _ _ _ _ (by decide) (by decide) (by decide) (by decide)]
  · intro h1 h2
    simp only [mergeTrendValues]
    rw [if_neg hn]
    rw [getF_setA_ne _ "rate" "p(50)" _ _ (by decide)]
    simp only [percentileKeys, List.foldl_cons, List.foldl_nil]
    rw [getF_percStep_ne _ _ _ _ _ "p(99)" "p(50)" _ (by decide),
      getF_percStep_ne _ _ _ _ _ "p(95)" "p(50)" _ (by decide),
      getF_percStep_ne _ _ _ _ _ "p(90)" "p(50)" _ (by decide)]
    rw [percStep_both _ _ _ _ _ _
      (by
        rw [hasKey_quad _ _ _ _ _ _ (by decide) (by decide) (by decide) (by decide)]
        exact h1) h2]
    rw [getF_quad _ _ _ _ _ _ _ (by decide) (by decide) (by decide) (by decide)]
  · intro h2
    simp only [mergeTrendValues]
    rw [if_neg hn]
    rw [getF_setA_ne _ "rate" "p(50)" _ _ (by decide)]
    simp only [percentileKeys, List.foldl_cons, List.foldl_nil]
    rw [getF_percStep_ne _ _ _ _ _ "p(99)" "p(50)" _ (by decide),
      getF_percStep_ne _ _ _ _ _ "p(95)" "p(50)" _ (by decide),
      getF_percStep_ne _ _ _ _ _ "p(90)" "p(50)" _ (by decide),
      percStep_src_absent _ _ _ _ _ _ h2,
      getF_quad _ _ _ _ _ _ _ (by decide) (by decide) (by decide) (by decide)]

theorem mergeTrend_perc90 (tv sv : List (String × ℚ))
    (hn : getF tv "count" 0 + getF sv "count" 0 ≠ 0) :
    hasKey (mergeTrendValues tv sv) "p(90)" = hasKey tv "p(90)" ∧
    (hasKey tv "p(90)" = true → hasKey sv "p(90)" = true →
      getF (mergeTrendValues tv sv) "p(90)" 0 =
        (getF tv "p(90)" 0 * getF tv "count" 0 +
          getF sv "p(90)" 0 * getF sv "count" 0) /
          (getF tv "count" 0 + getF sv "count" 0)) ∧
    (hasKey sv "p(90)" = false →
      getF (mergeTrendValues tv sv) "p(90)" 0 = getF tv "p(90)" 0) := by
  refine ⟨?_, ?_, ?_⟩
  · simp only [mergeTrendValues]
    rw [if_neg hn]
    rw [hasKey_setA_ne _ "rate" "p(90)" _ (by decide)]
    simp only [percentileKeys, List.foldl_cons, List.foldl_nil]
    rw [hasKey_percStep_ne _ _ _ _ _ "p(99)" "p(90)" (by decide),
      hasKey_percStep_ne _ _ _ _ _ "p(95)" "p(90)" (by decide),
      hasKey_percStep_self,
      hasKey_percStep_ne _ _ _ _ _ "p(50)" "p(90)" (by decide),
      hasKey_quad _ _ _ _ _ _ (by decide) (by decide) (by decide) (by decide)]
  · intro h1 h2
    simp only [mergeTrendValues]
    rw [if_neg hn]
    rw [getF_setA_ne _ "rate" "p(90)" _ _ (by decide)]
    simp only [percentileKeys, List.foldl_cons, List.foldl_nil]
    rw [getF_percStep_ne _ _ _ _ _ "p(99)" "p(90)" _ (by decide),
      getF_percStep_ne _ _ _ _ _ "p(95)" "p(90)" _ (by decide)]
    rw [percStep_both _ _ _ _ _ _
      (by
        rw [hasKey_percStep_ne _ _ _ _ _ "p(50)" "p(90)" (by decide),
          hasKey_quad _ _ _ _ _ _ (by decide) (by decide) (by decide) (by decide)]
        exact h1) h2]
    rw [getF_percStep_ne _ _ _ _ _ "p(50)" "p(90)" _ (by decide),
      getF_quad _ _ _ _ _ _ _ (by decide) (by decide) (by decide) (by decide)]
  · intro h2
    simp only [mergeTrendValues]
    rw [if_neg hn]
    rw [getF_setA_ne _ "rate" "p(90)" _ _ (by decide)]
    simp only [percentileKeys, List.foldl_cons, List.foldl_nil]
    rw [getF_percStep_ne _ _ _ _ _ "p(99)" "p(90)" _ (by decide),
      getF_percStep_ne _ _ _ _ _ "p(95)" "p(90)" _ (by decide),
      percStep_src_absent _ _ _ _ _ _ h2,
      getF_percStep_ne _ _ _ _ _ "p(50)" "p(90)" _ (by decide),
      getF_quad _ _ _ _ _ _ _ (by decide) (by decide) (by decide) (by decide)]

theorem mergeTrend_perc95 (tv sv : List (String × ℚ))
    (hn : getF tv "count" 0 + getF sv "count" 0 ≠ 0) :
    hasKey (mergeTrendValues tv sv) "p(95)" = hasKey tv "p(95)" ∧
    (hasKey tv "p(95)" = true → hasKey sv "p(95)" = true →
      getF (mergeTrendValues tv sv) "p(95)" 0 =
        (getF tv "p(95)" 0 * getF tv "count" 0 +
          getF sv "p(95)" 0 * getF sv "count" 0) /
          (getF tv "count" 0 + getF sv "count" 0)) ∧
    (hasKey sv "p(95)" = false →
      getF (mergeTrendValues tv sv) "p(95)" 0 = getF tv "p(95)" 0) := by
  refine ⟨?_, ?_, ?_⟩
  · simp only [mergeTrendValues]
    rw [if_neg hn]
    rw [hasKey_setA_ne _ "rate" "p(95)" _ (by decide)]
    simp only [percentileKeys, List.foldl_cons, List.foldl_nil]
    rw [hasKey_percStep_ne _ _ _ _ _ "p(99)" "p(95)" (by decide),
      hasKey_percStep_self,
      hasKey_percStep_ne _ _ _ _ _ "p(90)" "p(95)" (by decide),
      hasKey_percStep_ne _ _ _ _ _ "p(50)" "p(95)" (by decide),
      hasKey_quad _ _ _ _ _ _ (by decide) (by decide) (by decide) (by decide)]
  · intro h1 h2
    simp only [mergeTrendValues]
    rw [if_neg hn]
    rw [getF_setA_ne _ "rate" "p(95)" _ _ (by decide)]
    simp only [percentileKeys, List.foldl_cons, List.foldl_nil]
    rw [getF_percStep_ne _ _ _ _ _ "p(99)" "p(95)" _ (by decide)]
    rw [percStep_both _ _ _ _ _ _
      (by
        rw [hasKey_percStep_ne _ _ _ _ _ "p(90)" "p(95)" (by decide),
          hasKey_percStep_ne _ _ _ _ _ "p(50)" "p(95)" (by decide),
          hasKey_quad _ _ _ _ _ _ (by decide) (by decide) (by decide) (by decide)]
        exact h1) h2]
    rw [getF_percStep_ne _ _ _ _ _ "p(90)" "p(95)" _ (by decide),
      getF_percStep_ne _ _ _ _ _ "p(50)" "p(95)" _ (by decide),
      getF_quad _ _ _ _ _ _ _ (by decide) (by decide) (by decide) (by decide)]
  · intro h2
    simp only [mergeTrendValues]
    rw [if_neg hn]
    rw [getF_setA_ne _ "rate" "p(95)" _ _ (by decide)]
    simp only [percentileKeys, List.foldl_cons, List.foldl_nil]
    rw [getF_percStep_ne _ _ _ _ _ "p(99)" "p(95)" _ (by decide),
      percStep_src_absent _ _ _ _ _ _ h2,
      getF_percStep_ne _ _ _ _ _ "p(90)" "p(95)" _ (by decide),
      getF_percStep_ne _ _ _ _ _ "p(50)" "p(95)" _ (by decide),
      getF_quad _ _ _ _ _ _ _ (by decide) (by decide) (by decide) (by decide)]

theorem mergeTrend_perc99 (tv sv : List (String × ℚ))
    (hn : getF tv "count" 0 + getF sv "count" 0 ≠ 0) :
    hasKey (mergeTrendValues tv sv) "p(99)" = hasKey tv "p(99)" ∧
    (hasKey tv "p(99)" = true → hasKey sv "p(99)" = true →
      getF (mergeTrendValues tv sv) "p(99)" 0 =
        (getF tv "p(99)" 0 * getF tv "count" 0 +
          getF sv "p(99)" 0 * getF sv "count" 0) /
          (getF tv "count" 0 + getF sv "count" 0)) ∧
    (hasKey sv "p(99)" = false →
      getF (mergeTrendValues tv sv) "p(99)" 0 = getF tv "p(99)" 0) := by
  refine ⟨?_, ?_, ?_⟩
  · simp only [mergeTrendValues]
    rw [if_neg hn]
    rw [hasKey_setA_ne _ "rate" "p(99)" _ (by decide)]
    simp only [percentileKeys, List.foldl_cons, List.foldl_nil]
    rw [hasKey_percStep_self,
      hasKey_percStep_ne _ _ _ _ _ "p(95)" "p(99)" (by decide),
      hasKey_percStep_ne _ _ _ _ _ "p(90)" "p(99)" (by decide),
      hasKey_percStep_ne _ _ _ _ _ "p(50)" "p(99)" (by decide),
      hasKey_quad _ _ _ _ _ _ (by decide) (by decide) (by decide) (by decide)]
  · intro h1 h2
    simp only [mergeTrendValues]
    rw [if_neg hn]
    rw [getF_setA_ne _ "rate" "p(99)" _ _ (by decide)]
    simp only [percentileKeys, List.foldl_cons, List.foldl_nil]
    rw [percStep_both _ _ _ _ _ _
      (by
        rw [hasKey_percStep_ne _ _ _ _ _ "p(95)" "p(99)" (by decide),
          hasKey_percStep_ne _ _ _ _ _ "p(90)" "p(99)" (by decide),
          hasKey_percStep_ne _ _ _ _ _ "p(50)" "p(99)" (by decide),
          hasKey_quad _ _ _ _ _ _ (by decide) (by decide) (by decide) (by decide)]
        exact h1) h2]
    rw [getF_percStep_ne _ _ _ _ _ "p(95)" "p(99)" _ (by decide),
      getF_percStep_ne _ _ _ _ _ "p(90)" "p(99)" _ (by decide),
      getF_percStep_ne _ _ _ _ _ "p(50)" "p(99)" _ (by decide),
      getF_quad _ _ _ _ _ _ _ (by decide) (by decide) (by decide) (by decide)]
  · intro h2
    simp only [mergeTrendValues]
    rw [if_neg hn]
    rw [getF_setA_ne _ "rate" "p(99)" _ _ (by decide)]
    simp only [percentileKeys, List.foldl_cons, List.foldl_nil]
    rw [percStep_src_absent _ _ _ _ _ _ h2,
      getF_percStep_ne _ _ _ _ _ "p(95)" "p(99)" _ (by decide),
      getF_percStep_ne _ _ _ _ _ "p(90)" "p(99)" _ (by decide),
      getF_percStep_ne _ _ _ _ _ "p(50)" "p(99)" _ (by decide),
      getF_quad _ _ _ _ _ _ _ (by decide) (by decide) (by decide) (by decide)]

/-- C1: weighted trend merge.  For trend metrics with sample counts
`n_t`, `n_s` and `n = n_t + n_s`: if `n = 0` the merge leaves the target
unchanged; otherwise the merged target has `count = n`,
`min = min(min_t, min_s)`, `max = max(max_t, max_s)`,
`avg = (avg_t·n_t + avg_s·n_s)/n`; each percentile key among p(50), p(90),
p(95), p(99) present on both sides becomes `(p_t·n_t + p_s·n_s)/n`, a
percentile present only on the target keeps its value, and one present
only on the source is never imported (percentile presence on the target
is unchanged).  In particular, merging `{count:2, avg:100, p(95):140}`
with `{count:3, avg:200, p(95):280}` yields
`{count:5, avg:160, p(95):224}`. -/
theorem C1_mergeTrendMetric_weighted (tv sv : List (String × ℚ)) :
    (getF tv "count" 0 + getF sv "count" 0 = 0 → mergeTrendValues tv sv = tv) ∧
    (getF tv "count" 0 + getF sv "count" 0 ≠ 0 →
      getF (mergeTrendValues tv sv) "count" 0 =
        getF tv "count" 0 + getF sv "count" 0 ∧
      (hasKey tv "min" = true → hasKey sv "min" = true →
        getF (mergeTrendValues tv sv) "min" 0 =
          min (getF tv "min" 0) (getF sv "min" 0)) ∧
      (hasKey tv "max" = true → hasKey sv "max" = true →
        getF (mergeTrendValues tv sv) "max" 0 =
          max (getF tv "max" 0) (getF sv "max" 0)) ∧
      getF (mergeTrendValues tv sv) "avg" 0 =
        (getF tv "avg" 0 * getF tv "count" 0 +
          getF sv "avg" 0 * getF sv "count" 0) /
          (getF tv "count" 0 + getF sv "count" 0) ∧
      (∀ p ∈ percentileKeys,
        hasKey (mergeTrendValues tv sv) p = hasKey tv p ∧
        (hasKey tv p = true → hasKey sv p = true →
          getF (mergeTrendValues tv sv) p 0 =
            (getF tv p 0 * getF tv "count" 0 +
              getF sv p 0 * getF sv "count" 0) /
              (getF tv "count" 0 + getF sv "count" 0)) ∧
        (hasKey sv p = false →
          getF (mergeTrendValues tv sv) p 0 = getF tv p 0))) ∧
    (getF (mergeTrendValues exTrendTarget exTrendSource) "count" 0 = 5 ∧
      getF (mergeTrendValues exTrendTarget exTrendSource) "avg" 0 = 160 ∧
      getF (mergeTrendValues exTrendTarget exTrendSource) "p(95)" 0 = 224) := by
  refine ⟨?_, fun hn =>
    ⟨mergeTrend_count tv sv hn,
     fun h1 h2 => mergeTrend_min tv sv hn h1 h2,
     fun h1 h2 => mergeTrend_max tv sv hn h1 h2,
     mergeTrend_avg tv sv hn, ?_⟩,
    by
      refine ⟨?_, ?_, ?_⟩ <;>
        norm_num +decide [mergeTrendValues, exTrendTarget, exTrendSource, getF,
          lookupA, setA, hasKey, percStep, percentileKeys, List.find?, maxFloat64]⟩
  · intro h
    simp only [mergeTrendValues]
    rw [if_pos h]
  · intro p hp
    simp only [percentileKeys, List.mem_cons, List.not_mem_nil, or_false] at hp
    rcases hp with hp | hp | hp | hp <;> subst hp
    · exact mergeTrend_perc50 tv sv hn
    · exact mergeTrend_perc90 tv sv hn
    · exact mergeTrend_perc95 tv sv hn
    · exact mergeTrend_perc99 tv sv hn

/-- Witness for C1 at a concrete pair of trend metrics. -/
theorem C1_mergeTrendMetric_weighted_witness :
    getF (mergeTrendValues wTrendTarget wTrendSource) "count" 0 = 5 ∧
    getF (mergeTrendValues wTrendTarget wTrendSource) "min" 0 = 50 ∧
    getF (mergeTrendValues wTrendTarget wTrendSource) "max" 0 = 300 ∧
    getF (mergeTrendValues wTrendTarget wTrendSource) "avg" 0 = 160 ∧
    getF (mergeTrendValues wTrendTarget wTrendSource) "p(90)" 0 = 224 ∧
    getF (mergeTrendValues wTrendTarget wTrendSource) "p(50)" 0 = 110 ∧
    hasKey (mergeTrendValues wTrendTarget wTrendSource) "p(99)" = false := by
  obtain ⟨-, hmain, -⟩ := C1_mergeTrendMetric_weighted wTrendTarget wTrendSource
  obtain ⟨hc, hmin, hmax, havg, hperc⟩ := hmain (by
    norm_num +decide [getF, lookupA, List.find?, wTrendTarget, wTrendSource])
  refine ⟨?_, ?_, ?_, ?_, ?_, ?_, ?_⟩
  · rw [hc]
    norm_num +decide [getF, lookupA, List.find?, wTrendTarget, wTrendSource]
  · rw [hmin (by decide) (by decide)]
    norm_num +decide [getF, lookupA, List.find?, wTrendTarget, wTrendSource]
  · rw [hmax (by decide) (by decide)]
    norm_num +decide [getF, lookupA, List.find?, wTrendTarget, wTrendSource]
  · rw [havg]
    norm_num +decide [getF, lookupA, List.find?, wTrendTarget, wTrendSource]
  · rw [(hperc "p(90)" (by decide)).2.1 (by decide) (by decide)]
    norm_num +decide [getF, lookupA, List.find?, wTrendTarget, wTrendSource]
  · rw [(hperc "p(50)" (by decide)).2.2 (by decide)]
    norm_num +decide [getF, lookupA, List.find?, wTrendTarget, wTrendSource]
  · rw [(hperc "p(99)" (by decide)).1]
    decide

/-- C8 counterexample: merging two rate metrics whose passes and fails
sum to `0` leaves the target's `value` unchanged (here `1/2`), not `0` as
the claim states. -/
theorem C8_mergeRateMetric_value_counterexample :
    getF (mergeRateValues exRateTarget exRateSource) "passes" 0 +
      getF (mergeRateValues exRateTarget exRateSource) "fails" 0 = 0 ∧
    getF (mergeRateValues exRateTarget exRateSource) "value" 0 = 1 / 2 ∧
    getF (mergeRateValues exRateTarget exRateSource) "value" 0 ≠ 0 := by
  refine ⟨?_, ?_, ?_⟩ <;>
    norm_num +decide [mergeRateValues, exRateTarget, exRateSource, getF, lookupA,
      setA, List.find?]

/-- C8 (amended): after `mergeRateMetric`, passes and fails are the sums
of both sides; when `passes + fails > 0` the merged `value` equals
`passes / (passes + fails)` and, for non-negative inputs, lies in
`[0, 1]`; when the denominator is not positive, `value` is left unchanged
on the target (not set to 0). -/
theorem C8_mergeRateMetric_value (tv sv : List (String × ℚ)) :
    getF (mergeRateValues tv sv) "passes" 0 =
      getF tv "passes" 0 + getF sv "passes" 0 ∧
    getF (mergeRateValues tv sv) "fails" 0 =
      getF tv "fails" 0 + getF sv "fails" 0 ∧
    (0 < (getF tv "passes" 0 + getF sv "passes" 0) +
        (getF tv "fails" 0 + getF sv "fails" 0) →
      getF (mergeRateValues tv sv) "value" 0 =
        (getF tv "passes" 0 + getF sv "passes" 0) /
          ((getF tv "passes" 0 + getF sv "passes" 0) +
            (getF tv "fails" 0 + getF sv "fails" 0))) ∧
    (¬ 0 < (getF tv "passes" 0 + getF sv "passes" 0) +
        (getF tv "fails" 0 + getF sv "fails" 0) →
      ∀ d : ℚ, getF (mergeRateValues tv sv) "value" d = getF tv "value" d) ∧
    (0 ≤ getF tv "passes" 0 → 0 ≤ getF sv "passes" 0 →
      0 ≤ getF tv "fails" 0 → 0 ≤ getF sv "fails" 0 →
      0 < (getF tv "passes" 0 + getF sv "passes" 0) +
        (getF tv "fails" 0 + getF sv "fails" 0) →
      0 ≤ getF (mergeRateValues tv sv) "value" 0 ∧
        getF (mergeRateValues tv sv) "value" 0 ≤ 1) := by
  simp only [mergeRateValues]
  by_cases htot : 0 < (getF tv "passes" 0 + getF sv "passes" 0) +
      (getF tv "fails" 0 + getF sv "fails" 0)
  · rw [if_pos htot]
    have hpasses :
        getF (setA (setA (setA tv "passes" (getF tv "passes" 0 + getF sv "passes" 0))
            "fails" (getF tv "fails" 0 + getF sv "fails" 0)) "value"
            ((getF tv "passes" 0 + getF sv "passes" 0) /
              ((getF tv "passes" 0 + getF sv "passes" 0) +
                (getF tv "fails" 0 + getF sv "fails" 0)))) "passes" 0 =
          getF tv "passes" 0 + getF sv "passes" 0 := by
      rw [getF_setA_ne _ "value" "passes" _ _ (by decide),
        getF_setA_ne _ "fails" "passes" _ _ (by decide), getF_setA_self]
    have hfails :
        getF (setA (setA (setA tv "passes" (getF tv "passes" 0 + getF sv "passes" 0))
            "fails" (getF tv "fails" 0 + getF sv "fails" 0)) "value"
            ((getF tv "passes" 0 + getF sv "passes" 0) /
              ((getF tv "passes" 0 + getF sv "passes" 0) +
                (getF tv "fails" 0 + getF sv "fails" 0)))) "fails" 0 =
          getF tv "fails" 0 + getF sv "fails" 0 := by
      rw [getF_setA_ne _ "value" "fails" _ _ (by decide), getF_setA_self]
    have hvalue :
        getF (setA (setA (setA tv "passes" (getF tv "passes" 0 + getF sv "passes" 0))
            "fails" (getF tv "fails" 0 + getF sv "fails" 0)) "value"
            ((getF tv "passes" 0 + getF sv "passes" 0) /
              ((getF tv "passes" 0 + getF sv "passes" 0) +
                (getF tv "fails" 0 + getF sv "fails" 0)))) "value" 0 =
          (getF tv "passes" 0 + getF sv "passes" 0) /
            ((getF tv "passes" 0 + getF sv "passes" 0) +
              (getF tv "fails" 0 + getF sv "fails" 0)) := by
      rw [getF_setA_self]
    refine ⟨hpasses, hfails, fun _ => hvalue, fun hc => absurd htot hc,
      fun hp1 hp2 hf1 hf2 _ => ?_⟩
    rw [hvalue]
    constructor
    · exact div_nonneg (by linarith) (le_of_lt htot)
    · rw [div_le_one htot]
      linarith
  · rw [if_neg htot]
    refine ⟨?_, ?_, fun hc => absurd hc htot, fun _ d => ?_, fun _ _ _ _ hc => absurd hc htot⟩
    · rw [getF_setA_ne _ "fails" "passes" _ _ (by decide), getF_setA_self]
    · rw [getF_setA_self]
    · rw [getF_setA_ne _ "fails" "value" _ _ (by decide),
        getF_setA_ne _ "passes" "value" _ _ (by decide)]

/-- Witness for C8 at a concrete pair of rate metrics. -/
theorem C8_mergeRateMetric_value_witness :
    getF (mergeRateValues wRateTarget wRateSource) "passes" 0 = 17 ∧
    getF (mergeRateValues wRateTarget wRateSource) "fails" 0 = 3 ∧
    getF (mergeRateValues wRateTarget wRateSource) "value" 0 = 17 / 20 ∧
    0 ≤ getF (mergeRateValues wRateTarget wRateSource) "value" 0 ∧
    getF (mergeRateValues wRateTarget wRateSource) "value" 0 ≤ 1 := by
  obtain ⟨hp, hf, hv, -, hb⟩ := C8_mergeRateMetric_value wRateTarget wRateSource
  obtain ⟨hb1, hb2⟩ := hb
    (by norm_num +decide [getF, lookupA, List.find?, wRateTarget])
    (by norm_num +decide [getF, lookupA, List.find?, wRateSource])
    (by norm_num +decide [getF, lookupA, List.find?, wRateTarget])
    (by norm_num +decide [getF, lookupA, List.find?, wRateSource])
    (by norm_num +decide [getF, lookupA, List.find?, wRateTarget, wRateSource])
  refine ⟨?_, ?_, ?_, hb1, hb2⟩
  · rw [hp]
    norm_num +decide [getF, lookupA, List.find?, wRateTarget, wRateSource]
  · rw [hf]
    norm_num +decide [getF, lookupA, List.find?, wRateTarget, wRateSource]
  · rw [hv (by norm_num +decide [getF, lookupA, List.find?, wRateTarget, wRateSource])]
    norm_num +decide [getF, lookupA, List.find?, wRateTarget, wRateSource]

theorem mem_metricKeys_setA {l : List (String × Metric)} {k : String}
    {v : Metric} {x : String} (hx : x ∈ metricKeys (setA l k v)) :
    x ∈ metricKeys l ∨ x = k := by
  induction l with
  | nil => simp [setA, metricKeys] at hx; right; exact hx
  | cons p rest ih =>
    obtain ⟨k0, v0⟩ := p
    by_cases h : k0 = k
    · simp only [setA, if_pos h, metricKeys, List.map_cons, List.toFinset_cons,
        Finset.mem_insert] at hx ⊢
      tauto
    · simp only [setA, if_neg h, metricKeys, List.map_cons, List.toFinset_cons,
        Finset.mem_insert] at hx ⊢
      rcases hx with hx | hx
      · tauto
      · rcases ih hx with h1 | h1 <;> tauto

theorem mem_metricKeys_append {l : List (String × Metric)} {k : String}
    {v : Metric} {x : String} (hx : x ∈ metricKeys (l ++ [(k, v)])) :
    x ∈ metricKeys l ∨ x = k := by
  simp only [metricKeys, List.map_append, List.toFinset_append, Finset.mem_union,
    List.map_cons, List.map_nil, List.toFinset_cons, List.toFinset_nil,
    Finset.mem_insert, Finset.not_mem_empty, or_false] at hx
  exact hx

theorem aggStep_inv (hash8 : String → String) (cfg : AggConfig)
    (st : AggState) (e : String × Metric) (h : AggInv cfg st) :
    AggInv cfg (aggStep hash8 cfg st e) := by
  obtain ⟨hcard, hcount⟩ := h
  unfold aggStep
  by_cases hg : isGlobalMetric e.1
  · simpa [hg] using ⟨hcard, hcount⟩
  · simp only [hg, Bool.false_eq_true, if_false]
    unfold routeEndpoint
    by_cases hmax : cfg.maxEndpoints ≤ st.endpointCount
    · rw [if_pos hmax]
      by_cases hnb : cfg.noBucket
      · simpa [hnb] using ⟨hcard, hcount⟩
      · simp only [hnb, Bool.false_eq_true, if_false]
        have hsub : ∀ (rm : List (String × Metric)),
            (∀ x ∈ metricKeys rm, x ∈ metricKeys st.resultMetrics ∨ x = "other") →
            ((metricKeys rm).erase "other").card ≤ st.endpointCount := by
          intro rm hrm
          refine le_trans (Finset.card_le_card ?_) hcard
          intro x hx
          rw [Finset.mem_erase] at hx ⊢
          rcases hrm x hx.2 with h1 | h1
          · exact ⟨hx.1, h1⟩
          · exact absurd h1 hx.1
        cases hl : lookupA
            { st with endpointsBucketed := st.endpointsBucketed + 1 }.resultMetrics
            "other" with
        | some existing =>
          simp only [hl]
          exact ⟨hsub _ (fun x hx => mem_metricKeys_setA hx), hcount⟩
        | none =>
          simp only [hl]
          exact ⟨hsub _ (fun x hx => mem_metricKeys_append hx), hcount⟩
    · rw [if_neg hmax]
      have hlt : st.endpointCount < cfg.maxEndpoints := lt_of_not_le hmax
      have hstep : ∀ (nn : String) (rm : List (String × Metric)),
          (∀ x ∈ metricKeys rm, x ∈ metricKeys st.resultMetrics ∨ x = nn) →
          ((metricKeys rm).erase "other").card ≤ st.endpointCount + 1 := by
        intro nn rm hrm
        have hsub : (metricKeys rm).erase "other" ⊆
            insert nn ((metricKeys st.resultMetrics).erase "other") := by
          intro x hx
          rw [Finset.mem_erase] at hx
          rcases hrm x hx.2 with h1 | h1
          · exact Finset.mem_insert_of_mem (Finset.mem_erase.mpr ⟨hx.1, h1⟩)
          · exact h1 ▸ Finset.mem_insert_self _ _
        refine le_trans (Finset.card_le_card hsub) ?_
        calc (insert nn ((metricKeys st.resultMetrics).erase "other")).card
            ≤ ((metricKeys st.resultMetrics).erase "other").card + 1 :=
              Finset.card_insert_le _ _
          _ ≤ st.endpointCount + 1 := by omega
      cases hl : lookupA
          { st with
              endpointMap := setA st.endpointMap
                (match lookupA st.endpointMap (normalizeEndpoint e.1) with
                 | some existingOriginal =>
                   if existingOriginal ≠ e.1 then
                     normalizeEndpoint e.1 ++ "_" ++ hash8 e.1
                   else normalizeEndpoint e.1
                 | none => normalizeEndpoint e.1) e.1,
              endpointCount := st.endpointCount + 1 }.resultMetrics
          (match lookupA st.endpointMap (normalizeEndpoint e.1) with
           | some existingOriginal =>
             if existingOriginal ≠ e.1 then
               normalizeEndpoint e.1 ++ "_" ++ hash8 e.1
             else normalizeEndpoint e.1
           | none => normalizeEndpoint e.1) with
      | some existing =>
        simp only [hl]
        exact ⟨hstep _ _ (fun x hx => mem_metricKeys_setA hx), hlt⟩
      | none =>
        simp only [hl]
        exact ⟨hstep _ _ (fun x hx => mem_metricKeys_append hx), hlt⟩

theorem foldl_aggStep_inv (hash8 : String → String) (cfg : AggConfig)
    (entries : List (String × Metric)) (st : AggState) (h : AggInv cfg st) :
    AggInv cfg (entries.foldl (aggStep hash8 cfg) st) := by
  induction entries generalizing st with
  | nil => simpa using h
  | cons e rest ih =>
    rw [List.foldl_cons]
    exact ih _ (aggStep_inv hash8 cfg st e h)

theorem aggregateEndpointPhase_inv (hash8 : String → String) (cfg : AggConfig)
    (snaps : List Snapshot) :
    AggInv cfg (aggregateEndpointPhase hash8 cfg snaps) := by
  unfold aggregateEndpointPhase
  have hstep : ∀ (l : List Snapshot) (st : AggState), AggInv cfg st →
      AggInv cfg (l.foldl (fun st snap => snap.foldl (aggStep hash8 cfg) st) st) := by
    intro l
    induction l with
    | nil => intro st h; simpa using h
    | cons snap rest ih =>
      intro st h
      rw [List.foldl_cons]
      exact ih _ (foldl_aggStep_inv hash8 cfg snap st h)
  refine hstep snaps AggState.init ?_
  constructor
  · simp [AggState.init, metricKeys]
  · simp [AggState.init]

theorem mem_collectGlobals_global {snaps : List Snapshot} {x : String}
    (hx : x ∈ metricKeys (collectGlobals snaps)) : isGlobalMetric x = true := by
  unfold collectGlobals at hx
  have hstep : ∀ (l : List Snapshot) (acc : List (String × Metric)),
      (∀ y ∈ metricKeys acc, isGlobalMetric y = true) →
      ∀ y ∈ metricKeys (l.foldl (fun acc snap => snap.foldl globStep acc) acc),
        isGlobalMetric y = true := by
    intro l
    induction l with
    | nil => intro acc hacc; simpa using hacc
    | cons snap rest ih =>
      intro acc hacc
      rw [List.foldl_cons]
      refine ih _ ?_
      have hinner : ∀ (entries : List (String × Metric)) (acc0 : List (String × Metric)),
          (∀ y ∈ metricKeys acc0, isGlobalMetric y = true) →
          ∀ y ∈ metricKeys (entries.foldl globStep acc0), isGlobalMetric y = true := by
        intro entries
        induction entries with
        | nil => intro acc0 h0; simpa using h0
        | cons e rest0 ih0 =>
          intro acc0 h0
          rw [List.foldl_cons]
          refine ih0 _ ?_
          intro y hy
          unfold globStep at hy
          by_cases hge : isGlobalMetric e.1
          · simp only [hge, if_true] at hy
            cases hl : lookupA acc0 e.1 with
            | some ex =>
              rw [hl] at hy
              rcases mem_metricKeys_setA hy with h1 | h1
              · exact h0 y h1
              · exact h1 ▸ hge
            | none =>
              rw [hl] at hy
              rcases mem_metricKeys_append hy with h1 | h1
              · exact h0 y h1
              · exact h1 ▸ hge
          · simp only [hge, Bool.false_eq_true, if_false] at hy
            exact h0 y hy
      exact hinner snap acc hacc
  exact hstep snaps [] (by simp [metricKeys]) x hx

theorem mem_addGlobalMetrics {result : List (String × Metric)}
    {snaps : List Snapshot} {x : String}
    (hx : x ∈ metricKeys (addGlobalMetrics result snaps)) :
    x ∈ metricKeys result ∨ isGlobalMetric x = true := by
  unfold addGlobalMetrics at hx
  have hstep : ∀ (gl : List (String × Metric)) (res : List (String × Metric)),
      x ∈ metricKeys (gl.foldl (fun res entry => setA res entry.1 entry.2) res) →
      x ∈ metricKeys res ∨ x ∈ metricKeys gl := by
    intro gl
    induction gl with
    | nil => intro res h; simpa using Or.inl h
    | cons e rest ih =>
      intro res h
      rw [List.foldl_cons] at h
      rcases ih _ h with h1 | h1
      · rcases mem_metricKeys_setA h1 with h2 | h2
        · exact Or.inl h2
        · right
          simp [metricKeys, h2]
      · right
        simp only [metricKeys, List.map_cons, List.toFinset_cons, Finset.mem_insert]
        right
        exact h1
  rcases hstep _ _ hx with h1 | h1
  · exact Or.inl h1
  · exact Or.inr (mem_collectGlobals_global h1)

/-- C4: cardinality ceiling.  After aggregating any list of snapshots
with any configuration, the number of distinct endpoint keys in the
aggregate — excluding the overflow bucket `"other"` and the global
metrics — never exceeds `MaxEndpoints`. -/
theorem C4_cardinality_ceiling (hash8 : String → String) (cfg : AggConfig)
    (snaps : List Snapshot) :
    ((metricKeys (AggregateMetrics hash8 cfg snaps)).filter
      (fun k => isGlobalMetric k = false ∧ k ≠ "other")).card ≤
      cfg.maxEndpoints := by
  obtain ⟨hcard, hcount⟩ := aggregateEndpointPhase_inv hash8 cfg snaps
  refine le_trans (le_trans (Finset.card_le_card ?_) hcard) hcount
  intro x hx
  rw [Finset.mem_filter] at hx
  obtain ⟨hmem, hng, hno⟩ := hx
  rw [Finset.mem_erase]
  refine ⟨hno, ?_⟩
  rcases mem_addGlobalMetrics hmem with h1 | h1
  · exact h1
  · rw [h1] at hng
    cases hng

theorem mem_metricKeys_of_lookupA {l : List (String × Metric)} {k : String}
    {v : Metric} (h : lookupA l k = some v) : k ∈ metricKeys l := by
  induction l with
  | nil => simp [lookupA, List.find?] at h
  | cons p rest ih =>
    obtain ⟨k0, v0⟩ := p
    by_cases hk : k0 = k
    · subst hk
      simp [metricKeys]
    · simp only [lookupA, List.find?] at h
      rw [show (decide (k0 = k)) = false by simp [hk]] at h
      simp only [metricKeys, List.map_cons, List.toFinset_cons, Finset.mem_insert]
      exact Or.inr (ih h)

/-- C10: in `AggregateMetrics` the cardinality budget counts metric
occurrences, not distinct keys.  (a) While `endpointCount < MaxEndpoints`,
processing a non-global metric increments `endpointCount` even when the
same normalized key is already recorded with the same original name.
(b) Once `endpointCount ≥ MaxEndpoints` (and `NoBucket` is false), a
further non-global occurrence is routed to the `"other"` bucket without
touching the counter.  (c) With `NoBucket` true it is dropped entirely.
(d) Concretely, aggregating three snapshots that all carry the single
endpoint key `users_profile` under `MaxEndpoints = 2` produces an
`"other"` bucket although only one distinct key ever occurs. -/
theorem C10_cardinality_counts_occurrences (hash8 : String → String)
    (cfg : AggConfig) (st : AggState) (e : String × Metric) :
    (isGlobalMetric e.1 = false → st.endpointCount < cfg.maxEndpoints →
      lookupA st.endpointMap e.1 = some e.1 →
      (aggStep hash8 cfg st e).endpointCount = st.endpointCount + 1) ∧
    (isGlobalMetric e.1 = false → cfg.maxEndpoints ≤ st.endpointCount →
      cfg.noBucket = false →
      "other" ∈ metricKeys (aggStep hash8 cfg st e).resultMetrics ∧
      (aggStep hash8 cfg st e).endpointCount = st.endpointCount ∧
      (aggStep hash8 cfg st e).endpointsBucketed = st.endpointsBucketed + 1) ∧
    (isGlobalMetric e.1 = false → cfg.maxEndpoints ≤ st.endpointCount →
      cfg.noBucket = true → aggStep hash8 cfg st e = st) ∧
    "other" ∈ metricKeys (AggregateMetrics dummyHash8 cfgC10
      [snapC10, snapC10, snapC10]) := by
  refine ⟨?_, ?_, ?_, ?_⟩
  · intro hg hlt hmap
    simp only [aggStep, routeEndpoint, normalizeEndpoint, hg, Bool.false_eq_true,
      if_false, if_neg (not_le.mpr hlt), hmap, ne_eq, not_true_eq_false, if_false]
    cases hl : lookupA st.resultMetrics e.1 <;> simp [hl]
  · intro hg hge hnb
    unfold aggStep routeEndpoint
    simp only [hg, Bool.false_eq_true, if_false, if_pos hge, hnb,
      Bool.false_eq_true, if_false]
    cases hl : lookupA
        { st with endpointsBucketed := st.endpointsBucketed + 1 }.resultMetrics
        "other" with
    | some existing =>
      simp only [hl]
      refine ⟨?_, by trivial, by trivial⟩
      exact mem_metricKeys_of_lookupA (lookupA_setA_self _ _ _)
    | none =>
      simp only [hl]
      refine ⟨?_, by trivial, by trivial⟩
      simp [metricKeys]
  · intro hg hge hnb
    unfold aggStep routeEndpoint
    simp [hg, if_pos hge, hnb]
  · norm_num +decide [AggregateMetrics, addGlobalMetrics, collectGlobals,
      globStep, aggregateEndpointPhase, aggStep, routeEndpoint, AggState.init,
      normalizeEndpoint, isGlobalMetric, globalMetricNames, mergeMetric,
      mergeTrendValues, percStep, percentileKeys, cloneMetric, getF, setA,
      hasKey, lookupA, List.find?, maxFloat64, dummyHash8, cfgC10, snapC10,
      mC10, metricKeys]

/-- Witness for C10 at concrete states. -/
theorem C10_cardinality_counts_occurrences_witness :
    (aggStep dummyHash8 cfgC10
        { endpointMap := [("users_profile", "users_profile")],
          endpointCount := 1, endpointsBucketed := 0,
          resultMetrics := [("users_profile", mC10)] }
        ("users_profile", mC10)).endpointCount = 2 ∧
    "other" ∈ metricKeys (aggStep dummyHash8 cfgC10
        { endpointMap := [("users_profile", "users_profile")],
          endpointCount := 2, endpointsBucketed := 0,
          resultMetrics := [("users_profile", mC10)] }
        ("users_profile", mC10)).resultMetrics ∧
    aggStep dummyHash8 { cfgC10 with noBucket := true }
        { endpointMap := [("users_profile", "users_profile")],
          endpointCount := 2, endpointsBucketed := 0,
          resultMetrics := [("users_profile", mC10)] }
        ("users_profile", mC10) =
      { endpointMap := [("users_profile", "users_profile")],
        endpointCount := 2, endpointsBucketed := 0,
        resultMetrics := [("users_profile", mC10)] } := by
  refine ⟨?_, ?_, ?_⟩
  · exact (C10_cardinality_counts_occurrences dummyHash8 cfgC10 _ _).1
      (by decide) (by decide) (by decide)
  · exact ((C10_cardinality_counts_occurrences dummyHash8 cfgC10 _ _).2.1
      (by decide) (by decide) (by decide)).1
  · exact (C10_cardinality_counts_occurrences dummyHash8 _ _ _).2.2.1
      (by decide) (by decide) (by decide)

theorem extract_fresh (hash8 : String → String) (p : String) :
    ExtractSimpleEndpoint hash8 p = extractCore p := by
  unfold ExtractSimpleEndpoint ExtractSimpleEndpointWithState extractCore
  rw [show lookupA (NewDPNState).cache p = none from rfl]
  dsimp only
  split
  · rfl
  · split
    · rfl
    · unfold handleCollisionsAndCardinalityWithState
      rw [if_neg (by decide :
          ¬ (NewDPNState).config.maxEndpoints ≤ (NewDPNState).endpointCount)]
      rw [show lookupA (NewDPNState).endpointCollisions
          (rawTemplate (cleanedPath p)) = none from rfl]

theorem takeWhile_ne_of_not_mem {c : Char} {l : List Char} (h : c ∉ l) :
    l.takeWhile (fun x => x ≠ c) = l := by
  induction l with
  | nil => rfl
  | cons a t ih =>
    simp only [List.mem_cons, not_or] at h
    have ha : a ≠ c := Ne.symm h.1
    rw [List.takeWhile_cons]
    rw [show decide (a ≠ c) = true from by simp [ha], if_pos rfl, ih h.2]

theorem cutBefore_eq_self {c : Char} {s : String} (h : c ∉ s.toList) :
    cutBefore c s = s := by
  unfold cutBefore
  rw [takeWhile_ne_of_not_mem h, asString_toList]

theorem trimSuffixSlash_eq_self {s : String} (h : '/' ∉ s.toList) :
    trimSuffixSlash s = s := by
  unfold trimSuffixSlash
  split
  · next rest heq =>
    exfalso
    apply h
    rw [← List.mem_reverse, heq]
    exact List.mem_cons_self _ _
  · rfl

theorem splitChar_of_not_mem {c : Char} {l : List Char} (h : c ∉ l) :
    splitChar c l = [l] := by
  induction l with
  | nil => rfl
  | cons x xs ih =>
    simp only [List.mem_cons, not_or] at h
    simp only [splitChar, if_neg (Ne.symm h.1)]
    rw [ih h.2]

theorem replaceSlashes_of_not_mem {l : List Char} (h : '/' ∉ l) :
    replaceSlashes l = l := by
  induction l with
  | nil => rfl
  | cons x xs ih =>
    simp only [List.mem_cons, not_or] at h
    simp only [replaceSlashes, List.map_cons] at *
    rw [if_neg (Ne.symm h.1)]
    rw [show List.map (fun c => if c = '/' then '_' else c) xs = xs from ih h.2]

theorem toList_ne_nil {s : String} (h : s ≠ "") : s.toList ≠ [] := by
  intro hl
  apply h
  cases s with
  | mk data =>
    simp only [String.toList] at hl
    rw [hl]

theorem classifyKeep_none_or_self (i : ℕ) (t : String) :
    classifyKeep i t = none ∨ classifyKeep i t = some t := by
  have ht : normalizeTemplateVariable t = "" ∨ normalizeTemplateVariable t = t := by
    unfold normalizeTemplateVariable
    split_ifs <;> simp
  unfold classifyKeep
  rcases ht with ht | ht <;> rw [ht] <;> dsimp only
  · simp
  · split_ifs <;> simp

/-- The nonempty tokenization of a single, slash-free, trimmed, nonempty
token. -/
theorem tokensOf_single {r : String} (h1 : r ≠ "") (h3 : goTrimSpace r = r)
    (h4 : '/' ∉ r.toList) : tokensOf r = [r] := by
  unfold tokensOf
  rw [splitChar_of_not_mem h4]
  rw [show (List.map (fun l => goTrimSpace l.asString) [r.toList]) =
      [goTrimSpace r.toList.asString] from rfl]
  rw [asString_toList, h3]
  simp [h1]

/-- Any string satisfying the fixed-point side conditions is unchanged by
the fresh-state normalization pipeline. -/
theorem extractCore_fixed (r : String) (h1 : r ≠ "")
    (h2 : goToLower r = r) (h3 : goTrimSpace r = r)
    (h4 : '/' ∉ r.toList) (h5 : '?' ∉ r.toList) (h6 : '#' ∉ r.toList)
    (h7 : ';' ∉ r.toList) (h8 : trimExtIfAny r = r)
    (h9 : collapseU r.toList = r.toList)
    (h10 : trimChar '_' r.toList = r.toList) (h11 : r.length ≤ 80) :
    extractCore r = r := by
  have hclean : cleanedPath r = r := by
    unfold cleanedPath
    rw [h2, cutBefore_eq_self h5, cutBefore_eq_self h6, cutBefore_eq_self h7,
      trimSuffixSlash_eq_self h4]
  have hslash : r ≠ "/" := by
    intro he
    apply h4
    rw [he]
    decide
  have htok : tokensOf r = [r] := tokensOf_single h1 h3 h4
  unfold extractCore rawTemplate
  dsimp only
  rw [hclean, htok]
  rw [if_neg (by simp [h1, hslash])]
  rw [if_neg (by simp : ¬ ([r] = ([] : List String)))]
  rcases classifyKeep_none_or_self 0 r with hc | hc
  · have hkept : keptTokens [r] = [] := by
      simp [keptTokens, List.enum, hc]
    rw [hkept]
    rw [if_neg (by simp : ¬ (([] : List String) ≠ []))]
    rw [show shapeTokens ([] : List String) = "" from rfl]
    rw [show (trimChar '_' (collapseU ("" : String).toList)).asString = "" from rfl]
    rw [if_neg (by simp : ¬ (80 < ("" : String).length))]
    rw [if_pos rfl]
    rw [replaceSlashes_of_not_mem h4, h10, asString_toList]
  · have hkept : keptTokens [r] = [r] := by
      simp [keptTokens, List.enum, hc]
    rw [hkept]
    rw [if_pos (by simp : (([r] : List String) ≠ []))]
    rw [show shapeTokens [r] = r from rfl]
    rw [h8, h9, h10, asString_toList]
    rw [if_neg (by omega : ¬ 80 < r.length), if_neg h1]

/-- C2 counterexample: normalization is not idempotent.  On a fresh state
`ExtractSimpleEndpoint "/a.b.json" = "a.b"` (one trailing extension is
trimmed), but re-normalizing `"a.b"` trims again and yields `"a"`. -/
theorem C2_normalize_idempotent_counterexample :
    ExtractSimpleEndpoint dummyHash8 "/a.b.json" = "a.b" ∧
    ExtractSimpleEndpoint dummyHash8 (ExtractSimpleEndpoint dummyHash8 "/a.b.json") = "a" ∧
    ExtractSimpleEndpoint dummyHash8 (ExtractSimpleEndpoint dummyHash8 "/a.b.json") ≠
      ExtractSimpleEndpoint dummyHash8 "/a.b.json" := by
  refine ⟨by decide, by decide, by decide⟩

/-- C2 (amended): re-normalization is the identity on every normalized
key that survives the cleanup passes unchanged — i.e. whenever
`ExtractSimpleEndpoint p` (fresh state each call) is nonempty, already
lower-case and whitespace-trimmed, contains none of `/`, `?`, `#`, `;`,
is a fixed point of extension trimming, underscore collapsing and
underscore trimming, and is at most 80 characters, then
`ExtractSimpleEndpoint (ExtractSimpleEndpoint p) = ExtractSimpleEndpoint p`.
(The counterexample shows the side conditions are necessary: a key with a
trimmable `.` re-normalizes differently.) -/
theorem C2_normalize_idempotent (hash8 : String → String) (p : String)
    (h1 : ExtractSimpleEndpoint hash8 p ≠ "")
    (h2 : goToLower (ExtractSimpleEndpoint hash8 p) = ExtractSimpleEndpoint hash8 p)
    (h3 : goTrimSpace (ExtractSimpleEndpoint hash8 p) = ExtractSimpleEndpoint hash8 p)
    (h4 : '/' ∉ (ExtractSimpleEndpoint hash8 p).toList)
    (h5 : '?' ∉ (ExtractSimpleEndpoint hash8 p).toList)
    (h6 : '#' ∉ (ExtractSimpleEndpoint hash8 p).toList)
    (h7 : ';' ∉ (ExtractSimpleEndpoint hash8 p).toList)
    (h8 : trimExtIfAny (ExtractSimpleEndpoint hash8 p) = ExtractSimpleEndpoint hash8 p)
    (h9 : collapseU (ExtractSimpleEndpoint hash8 p).toList =
      (ExtractSimpleEndpoint hash8 p).toList)
    (h10 : trimChar '_' (ExtractSimpleEndpoint hash8 p).toList =
      (ExtractSimpleEndpoint hash8 p).toList)
    (h11 : (ExtractSimpleEndpoint hash8 p).length ≤ 80) :
    ExtractSimpleEndpoint hash8 (ExtractSimpleEndpoint hash8 p) =
      ExtractSimpleEndpoint hash8 p := by
  rw [extract_fresh hash8 (ExtractSimpleEndpoint hash8 p)]
  exact extractCore_fixed _ h1 h2 h3 h4 h5 h6 h7 h8 h9 h10 h11

/-- Witness for C2 at the concrete path `/users/me`. -/
theorem C2_normalize_idempotent_witness :
    ExtractSimpleEndpoint dummyHash8 (ExtractSimpleEndpoint dummyHash8 "/users/me") =
      ExtractSimpleEndpoint dummyHash8 "/users/me" :=
  C2_normalize_idempotent dummyHash8 "/users/me" (by decide) (by decide)
    (by decide) (by decide) (by decide) (by decide) (by decide) (by decide)
    (by decide) (by decide) (by decide)

/-- C6 counterexample: a path consisting solely of drop tokens does not
normalize to `"root"` — the classifier drops both tokens of `/api/v1`,
and the fallback then returns the cleaned path with `/` replaced by `_`,
namely `"api_v1"`. -/
theorem C6_root_normalization_counterexample :
    keptTokens (tokensOf (cleanedPath "/api/v1")) = [] ∧
    ExtractSimpleEndpoint dummyHash8 "/api/v1" = "api_v1" ∧
    ExtractSimpleEndpoint dummyHash8 "/api/v1" ≠ "root" := by
  refine ⟨by decide, by decide, by decide⟩

/-- C6 (amended): the empty path, `"/"` and `"///"` normalize to
`"root"`, as does any path whose cleaned form is empty, `"/"`, or has no
nonempty tokens; but a path with nonempty tokens that are all dropped or
rewritten empty by the classifier normalizes to the cleaned path with
`/` replaced by `_` and underscores trimmed (e.g. `"api_v1"`), not to
`"root"`. -/
theorem C6_root_normalization (hash8 : String → String) :
    (ExtractSimpleEndpoint hash8 "" = "root" ∧
     ExtractSimpleEndpoint hash8 "/" = "root" ∧
     ExtractSimpleEndpoint hash8 "///" = "root") ∧
    (∀ p : String, cleanedPath p ≠ "" → cleanedPath p ≠ "/" →
      tokensOf (cleanedPath p) ≠ [] →
      keptTokens (tokensOf (cleanedPath p)) = [] →
      ExtractSimpleEndpoint hash8 p =
        (trimChar '_' (replaceSlashes (cleanedPath p).toList)).asString) := by
  constructor
  · refine ⟨?_, ?_, ?_⟩ <;> · rw [extract_fresh]; decide
  · intro p hne hslash htoks hkept
    rw [extract_fresh]
    unfold extractCore rawTemplate
    dsimp only
    rw [if_neg (by simp [hne, hslash])]
    rw [if_neg htoks]
    rw [hkept]
    rw [if_neg (by simp : ¬ (([] : List String) ≠ []))]
    rw [show shapeTokens ([] : List String) = "" from rfl]
    rw [show (trimChar '_' (collapseU ("" : String).toList)).asString = "" from rfl]
    rw [if_neg (by simp : ¬ (80 < ("" : String).length))]
    rw [if_pos rfl]

/-- Witness for C6 at the concrete all-dropped path `/api/v1`. -/
theorem C6_root_normalization_witness :
    ExtractSimpleEndpoint dummyHash8 "" = "root" ∧
    ExtractSimpleEndpoint dummyHash8 "/api/v1" =
      (trimChar '_' (replaceSlashes (cleanedPath "/api/v1").toList)).asString :=
  ⟨(C6_root_normalization dummyHash8).1.1,
   (C6_root_normalization dummyHash8).2 "/api/v1" (by decide) (by decide)
     (by decide) (by decide)⟩

theorem mem_checkOneDuration_iff (opts : ThresholdOptions) (endpoint : String)
    (metric : Metric) (sc : ℤ) (k : String) (opt : Option DurationThreshold)
    (b : ThresholdBreach) :
    b ∈ checkOneDuration opts endpoint metric sc (k, opt) ↔
      ∃ dt v, opt = some dt ∧ lookupA metric.values k = some v ∧
        (durMs dt.value : ℚ) * (1 + durTolerance opts dt / 100) < v ∧
        b = durationBreach opts endpoint sc k dt v := by
  cases opt with
  | none => simp [checkOneDuration]
  | some dt =>
    simp only [checkOneDuration]
    cases hl : lookupA metric.values k with
    | none => simp [hl]
    | some v =>
      dsimp only
      split_ifs with hcond
      · simp [hl, hcond]
      · simp [hl, hcond]

theorem mem_checkDurationThresholds_iff (opts : ThresholdOptions)
    (endpoint : String) (metric : Metric) (th : ThresholdValues) (sc : ℤ)
    (b : ThresholdBreach) :
    b ∈ checkDurationThresholds opts endpoint metric th sc ↔
      ∃ k dt v, (k, some dt) ∈ durationChecks th ∧
        lookupA metric.values k = some v ∧
        (durMs dt.value : ℚ) * (1 + durTolerance opts dt / 100) < v ∧
        b = durationBreach opts endpoint sc k dt v := by
  unfold checkDurationThresholds
  rw [List.mem_flatMap]
  constructor
  · rintro ⟨⟨k, opt⟩, hmem, hb⟩
    obtain ⟨dt, v, hopt, hl, hc, rfl⟩ :=
      (mem_checkOneDuration_iff opts endpoint metric sc k opt _).mp hb
    exact ⟨k, dt, v, hopt ▸ hmem, hl, hc, rfl⟩
  · rintro ⟨k, dt, v, hmem, hl, hc, rfl⟩
    exact ⟨(k, some dt), hmem,
      (mem_checkOneDuration_iff opts endpoint metric sc k (some dt) _).mpr
        ⟨dt, v, rfl, hl, hc, rfl⟩⟩

theorem durationChecks_key_inj {th : ThresholdValues} {k : String}
    {o1 o2 : Option DurationThreshold}
    (h1 : (k, o1) ∈ durationChecks th) (h2 : (k, o2) ∈ durationChecks th) :
    o1 = o2 := by
  simp only [durationChecks, List.mem_cons, List.not_mem_nil, or_false,
    Prod.mk.injEq] at h1 h2
  rcases h1 with ⟨h1k, h1o⟩|⟨h1k, h1o⟩|⟨h1k, h1o⟩|⟨h1k, h1o⟩|⟨h1k, h1o⟩|⟨h1k, h1o⟩ <;>
    rcases h2 with ⟨h2k, h2o⟩|⟨h2k, h2o⟩|⟨h2k, h2o⟩|⟨h2k, h2o⟩|⟨h2k, h2o⟩|⟨h2k, h2o⟩ <;>
    subst h1k <;>
    first
      | (exact absurd h2k (by decide))
      | (rw [h1o, h2o])

/-- C3: breach condition and severity calculus for duration thresholds.
For a configured duration threshold `dt` at key `k` with an observed
value `v`, a breach for `k` is recorded iff
`v > T·(1 + tol/100)` where `T` is the threshold in milliseconds and
`tol` is the threshold's own tolerance when set, else the global option;
the recorded breach carries the observed value, the threshold in ms,
unit `"ms"`, severity `warning` iff `v ≤ T·(1 + 1.5·tol/100)` and
`error` otherwise; hence every such breach satisfies
`b.value > b.threshold·(1 + tol/100)`. -/
theorem C3_duration_breach_severity (opts : ThresholdOptions)
    (endpoint : String) (metric : Metric) (thresholds : ThresholdValues)
    (sc : ℤ) (k : String) (dt : DurationThreshold) (v : ℚ)
    (hk : (k, some dt) ∈ durationChecks thresholds)
    (hv : lookupA metric.values k = some v) :
    ((∃ b ∈ checkDurationThresholds opts endpoint metric thresholds sc,
        b.metric = k) ↔
      (durMs dt.value : ℚ) * (1 + durTolerance opts dt / 100) < v) ∧
    (∀ b ∈ checkDurationThresholds opts endpoint metric thresholds sc,
      b.metric = k →
      b.value = v ∧ b.threshold = (durMs dt.value : ℚ) ∧ b.unit = "ms" ∧
      b.endpoint = endpoint ∧ b.sampleCount = sc ∧
      b.severity =
        (if v ≤ (durMs dt.value : ℚ) * (1 + durTolerance opts dt / 100 * (3 / 2))
         then "warning" else "error") ∧
      b.threshold * (1 + durTolerance opts dt / 100) < b.value) := by
  have hfacts : ∀ b ∈ checkDurationThresholds opts endpoint metric thresholds sc,
      b.metric = k → b = durationBreach opts endpoint sc k dt v := by
    intro b hb hbm
    obtain ⟨k', dt', v', hmem', hl', hc', rfl⟩ :=
      (mem_checkDurationThresholds_iff opts endpoint metric thresholds sc b).mp hb
    have hk' : k' = k := hbm
    subst hk'
    have hdt : dt' = dt := Option.some_injective _ (durationChecks_key_inj hmem' hk)
    subst hdt
    have hvv : v' = v := by
      rw [hv] at hl'
      exact (Option.some_injective _ hl').symm
    subst hvv
    rfl
  constructor
  · constructor
    · rintro ⟨b, hb, hbm⟩
      obtain ⟨k', dt', v', hmem', hl', hc', rfl⟩ :=
        (mem_checkDurationThresholds_iff opts endpoint metric thresholds sc b).mp hb
      have hk' : k' = k := hbm
      subst hk'
      have hdt : dt' = dt := Option.some_injective _ (durationChecks_key_inj hmem' hk)
      subst hdt
      have hvv : v' = v := by
        rw [hv] at hl'
        exact (Option.some_injective _ hl').symm
      subst hvv
      exact hc'
    · intro hc
      refine ⟨durationBreach opts endpoint sc k dt v, ?_, rfl⟩
      exact (mem_checkDurationThresholds_iff opts endpoint metric thresholds sc _).mpr
        ⟨k, dt, v, hk, hv, hc, rfl⟩
  · intro b hb hbm
    have hbe := hfacts b hb hbm
    subst hbe
    refine ⟨rfl, rfl, rfl, rfl, rfl, rfl, ?_⟩
    have hc : (durMs dt.value : ℚ) * (1 + durTolerance opts dt / 100) < v := by
      obtain ⟨k', dt', v', hmem', hl', hc', heq⟩ :=
        (mem_checkDurationThresholds_iff opts endpoint metric thresholds sc _).mp hb
      have hk' : k' = k := by
        have : (durationBreach opts endpoint sc k' dt' v').metric = k' := rfl
        rw [← heq] at this
        exact this.symm.trans hbm
      subst hk'
      have hdt : dt' = dt := Option.some_injective _ (durationChecks_key_inj hmem' hk)
      subst hdt
      have hvv : v' = v := by
        rw [hv] at hl'
        exact (Option.some_injective _ hl').symm
      subst hvv
      exact hc'
    exact hc

/-- Witness for C3: the spec example (p95 = 300 ms, tolerance 10 %,
observed 400 ms) produces exactly an `error` breach. -/
theorem C3_duration_breach_severity_witness :
    ∃ b ∈ checkDurationThresholds optsC3 "users_profile" mC3 thC3 150,
      b.metric = "p(95)" ∧ b.severity = "error" ∧ b.unit = "ms" ∧
      b.threshold * (1 + durTolerance optsC3 dtC3 / 100) < b.value := by
  have hk : ("p(95)", some dtC3) ∈ durationChecks thC3 := by decide
  have hv : lookupA mC3.values "p(95)" = some 400 := rfl
  have h := C3_duration_breach_severity optsC3 "users_profile" mC3 thC3 150
    "p(95)" dtC3 400 hk hv
  have hms : durMs dtC3.value = 300 := by decide
  have hcond : (durMs dtC3.value : ℚ) * (1 + durTolerance optsC3 dtC3 / 100) < 400 := by
    rw [hms]
    norm_num [durTolerance, dtC3, optsC3]
  obtain ⟨b, hb, hbm⟩ := h.1.mpr hcond
  obtain ⟨-, -, hunit, -, -, hsev, hlt⟩ := h.2 b hb hbm
  refine ⟨b, hb, hbm, ?_, hunit, hlt⟩
  have hneg : ¬ (400 : ℚ) ≤ ((300 : ℤ) : ℚ) *
      (1 + durTolerance optsC3 dtC3 / 100 * (3 / 2)) := by
    norm_num [durTolerance, dtC3, optsC3]
  rw [hsev, hms, if_neg hneg]

/-- C5: the group patterns are iterated in the order of Go's `range` over
a map, which is unspecified — not lexicographic.  `cfgC5a` and `cfgC5b`
are the same groups map under two iteration orders (a permutation), both
patterns match the endpoint `"abc"`, yet the resolved threshold differs,
so `GetThresholdForEndpoint` is not a deterministic function of
`(config, endpoint)` and the lexicographically first pattern does not
reliably win. -/
theorem C5_group_iteration_order_dependent :
    cfgC5a.groups.Perm cfgC5b.groups ∧
    matchesPattern "abc" "a*" = true ∧
    matchesPattern "abc" "ab*" = true ∧
    (GetThresholdForEndpoint cfgC5a "abc").p95 =
      some { value := 100000000, tolerance := none } ∧
    (GetThresholdForEndpoint cfgC5b "abc").p95 =
      some { value := 200000000, tolerance := none } ∧
    GetThresholdForEndpoint cfgC5a "abc" ≠ GetThresholdForEndpoint cfgC5b "abc" := by
  refine ⟨?_, by decide, by decide, by decide, by decide, by decide⟩
  exact List.Perm.swap _ _ _

theorem mem_checkDurationThresholds_endpoint {opts : ThresholdOptions}
    {endpoint : String} {metric : Metric} {th : ThresholdValues} {sc : ℤ}
    {b : ThresholdBreach}
    (hb : b ∈ checkDurationThresholds opts endpoint metric th sc) :
    b.endpoint = endpoint := by
  obtain ⟨k, dt, v, -, -, -, rfl⟩ :=
    (mem_checkDurationThresholds_iff opts endpoint metric th sc b).mp hb
  rfl

theorem mem_checkRateThresholds_endpoint {opts : ThresholdOptions}
    {endpoint : String} {metric : Metric} {th : ThresholdValues} {sc : ℤ}
    {b : ThresholdBreach}
    (hb : b ∈ checkRateThresholds opts endpoint metric th sc) :
    b.endpoint = endpoint := by
  unfold checkRateThresholds at hb
  rw [List.mem_append] at hb
  rcases hb with hb | hb
  · cases her : th.errorRate with
    | none => rw [her] at hb; simp at hb
    | some rt =>
      rw [her] at hb
      dsimp only at hb
      split_ifs at hb <;>
        first
          | (exact absurd hb (List.not_mem_nil _))
          | (subst hb; rfl)
          | (rw [List.mem_singleton] at hb; subst hb; rfl)
  · cases hrps : th.rps with
    | none => rw [hrps] at hb; simp at hb
    | some rt =>
      rw [hrps] at hb
      dsimp only at hb
      cases hl : lookupA metric.values "rate" with
      | none => rw [hl] at hb; simp at hb
      | some rate =>
        rw [hl] at hb
        dsimp only at hb
        split_ifs at hb <;>
          first
            | (exact absurd hb (List.not_mem_nil _))
            | (subst hb; rfl)
            | (rw [List.mem_singleton] at hb; subst hb; rfl)

theorem validateOne_endpoint (tc : ThresholdConfig) (n : String) (m : Metric)
    (b : ThresholdBreach) (hb : b ∈ validateOne tc (n, m)) : b.endpoint = n := by
  unfold validateOne at hb
  dsimp only at hb
  by_cases h1 : isEndpointMetric n
  · rw [if_neg (by simp [h1])] at hb
    by_cases h2 : sampleCountOf m < effectiveMinSamples tc.options
    · rw [if_pos h2] at hb
      exact absurd hb (List.not_mem_nil _)
    · rw [if_neg h2] at hb
      rw [List.mem_append] at hb
      rcases hb with hb | hb
      · exact mem_checkDurationThresholds_endpoint hb
      · exact mem_checkRateThresholds_endpoint hb
  · rw [if_pos (by simp [h1])] at hb
    exact absurd hb (List.not_mem_nil _)

theorem assoc_key_eq {β : Type} {l : List (String × β)}
    (hnd : (l.map Prod.fst).Nodup) {k : String} {v v' : β}
    (h1 : (k, v) ∈ l) (h2 : (k, v') ∈ l) : v = v' := by
  induction l with
  | nil => simp at h1
  | cons p rest ih =>
    rw [List.map_cons, List.nodup_cons] at hnd
    rcases List.mem_cons.mp h1 with h1' | h1' <;>
      rcases List.mem_cons.mp h2 with h2' | h2'
    · rw [← h1'] at h2'
      injection h2' with hfst hsnd
      exact hsnd.symm
    · exfalso
      apply hnd.1
      rw [← h1']
      exact List.mem_map.mpr ⟨(k, v'), h2', rfl⟩
    · exfalso
      apply hnd.1
      rw [← h2']
      exact List.mem_map.mpr ⟨(k, v), h1', rfl⟩
    · exact ih hnd.2 h1' h2'

/-- C7 (amended): the only minimum-sample gate `ValidateThresholds`
applies is `Options.MinSamples` (with `0` defaulting to `100`): a metric
whose sample count is below that produces no breach at all, and a metric
at or above it is validated against its resolved thresholds — the
per-endpoint `min_samples` override resolved by `GetThresholdForEndpoint`
plays no part in the gate. -/
theorem C7_min_sample_gate (tc : ThresholdConfig)
    (metrics : List (String × Metric)) (n : String) (m : Metric)
    (hmem : (n, m) ∈ metrics) (hnd : (metrics.map Prod.fst).Nodup) :
    (sampleCountOf m < effectiveMinSamples tc.options →
      ∀ b ∈ ValidateThresholds tc metrics, b.endpoint ≠ n) ∧
    (isEndpointMetric n = true →
      effectiveMinSamples tc.options ≤ sampleCountOf m →
      ∀ b : ThresholdBreach,
        b ∈ ValidateThresholds tc metrics ∧ b.endpoint = n ↔
          b ∈ checkDurationThresholds tc.options n m
              (GetThresholdForEndpoint tc n) (sampleCountOf m) ++
            checkRateThresholds tc.options n m
              (GetThresholdForEndpoint tc n) (sampleCountOf m)) := by
  constructor
  · intro hlt b hb heq
    rw [ValidateThresholds, List.mem_flatMap] at hb
    obtain ⟨⟨n', m'⟩, hmem', hb'⟩ := hb
    have hep : b.endpoint = n' := validateOne_endpoint tc n' m' b hb'
    have hn' : n' = n := by rw [← hep, heq]
    rw [hn'] at hmem' hb'
    have hm' : m' = m := assoc_key_eq hnd hmem' hmem
    rw [hm'] at hb'
    by_cases hie : isEndpointMetric n
    · simp [validateOne, hie, hlt] at hb'
    · simp [validateOne, hie] at hb'
  · intro hie hge b
    constructor
    · rintro ⟨hb, heq⟩
      rw [ValidateThresholds, List.mem_flatMap] at hb
      obtain ⟨⟨n', m'⟩, hmem', hb'⟩ := hb
      have hep : b.endpoint = n' := validateOne_endpoint tc n' m' b hb'
      have hn' : n' = n := by rw [← hep, heq]
      rw [hn'] at hmem' hb'
      have hm' : m' = m := assoc_key_eq hnd hmem' hmem
      rw [hm'] at hb'
      simpa [validateOne, hie, not_lt.mpr hge] using hb'
    · intro hb
      have hb' : b ∈ validateOne tc (n, m) := by
        simpa [validateOne, hie, not_lt.mpr hge] using hb
      refine ⟨?_, validateOne_endpoint tc n m b hb'⟩
      rw [ValidateThresholds, List.mem_flatMap]
      exact ⟨(n, m), hmem, hb'⟩

/-- C7 counterexample: the resolved per-endpoint override demands 1000
samples and the metric has only 50, so by the claim it must be skipped
entirely — yet `ValidateThresholds` (gating only on
`Options.MinSamples = 10`) emits a breach. -/
theorem C7_min_sample_gate_counterexample :
    (GetThresholdForEndpoint tcC7 "users_profile").minSamples = some 1000 ∧
    sampleCountOf mC7 < 1000 ∧
    ValidateThresholds tcC7 [("users_profile", mC7)] ≠ [] := by
  have hsc : sampleCountOf mC7 = 50 := by decide
  refine ⟨by decide, by rw [hsc]; decide, ?_⟩
  have hk : ("p(95)", some dt100ms) ∈
      durationChecks (GetThresholdForEndpoint tcC7 "users_profile") := by decide
  have hv : lookupA mC7.values "p(95)" = some 400 := rfl
  have hcond : (durMs dt100ms.value : ℚ) *
      (1 + durTolerance tcC7.options dt100ms / 100) < 400 := by
    rw [show durMs dt100ms.value = 100 from by decide]
    norm_num [durTolerance, dt100ms, tcC7, optsMin10]
  have hbmem : durationBreach tcC7.options "users_profile" (sampleCountOf mC7)
      "p(95)" dt100ms 400 ∈
      checkDurationThresholds tcC7.options "users_profile" mC7
        (GetThresholdForEndpoint tcC7 "users_profile") (sampleCountOf mC7) :=
    (mem_checkDurationThresholds_iff _ _ _ _ _ _).mpr
      ⟨"p(95)", dt100ms, 400, hk, hv, hcond, rfl⟩
  have hvo : durationBreach tcC7.options "users_profile" (sampleCountOf mC7)
      "p(95)" dt100ms 400 ∈ validateOne tcC7 ("users_profile", mC7) := by
    unfold validateOne
    rw [if_neg (by decide), if_neg (by rw [hsc]; decide)]
    exact List.mem_append_left _ hbmem
  have hmem : durationBreach tcC7.options "users_profile" (sampleCountOf mC7)
      "p(95)" dt100ms 400 ∈ ValidateThresholds tcC7 [("users_profile", mC7)] := by
    rw [ValidateThresholds, List.mem_flatMap]
    exact ⟨("users_profile", mC7), by simp, hvo⟩
  exact List.ne_nil_of_mem hmem

/-- Witness for C7: a metric below the effective minimum produces no
breaches at all. -/
theorem C7_min_sample_gate_witness :
    ValidateThresholds tcC7 [("users_profile", mC7low)] = [] := by
  have hlt : sampleCountOf mC7low < effectiveMinSamples tcC7.options := by
    rw [show sampleCountOf mC7low = 5 from by decide]
    decide
  have h := (C7_min_sample_gate tcC7 [("users_profile", mC7low)] "users_profile"
    mC7low (by simp) (by simp)).1 hlt
  cases hval : ValidateThresholds tcC7 [("users_profile", mC7low)] with
  | nil => rfl
  | cons b rest =>
    exfalso
    have hb : b ∈ ValidateThresholds tcC7 [("users_profile", mC7low)] := by
      rw [hval]
      exact List.mem_cons_self _ _
    have hne := h b hb
    rw [ValidateThresholds, List.mem_flatMap] at hb
    obtain ⟨⟨n', m'⟩, hmem', hb'⟩ := hb
    have h' := List.mem_singleton.mp hmem'
    rw [h'] at hb'
    exact hne (validateOne_endpoint _ _ _ _ hb')

/-- C9 (amended): `ValidateThresholds` emits no breach for any metric
whose name starts with one of the nine prefixes
`http_req_duration, http_reqs, http_req_failed, iterations, checks,
data_sent, data_received, vus, vus_max` — this covers those nine
canonical names and their underscore-suffixed variants, but not the
remaining canonical global metrics (`http_req_blocked` etc.), which the
validator treats as endpoint metrics. -/
theorem C9_system_metric_exclusion (tc : ThresholdConfig)
    (metrics : List (String × Metric)) (n : String) :
    (isEndpointMetric n = false →
      ∀ b ∈ ValidateThresholds tc metrics, b.endpoint ≠ n) ∧
    (∀ g ∈ systemMetricPrefixes, ∀ name : String,
      goStartsWith name g = true → isEndpointMetric name = false) := by
  constructor
  · intro hie b hb heq
    rw [ValidateThresholds, List.mem_flatMap] at hb
    obtain ⟨⟨n', m'⟩, hmem', hb'⟩ := hb
    have hep : b.endpoint = n' := validateOne_endpoint tc n' m' b hb'
    have hn' : n' = n := by rw [← hep, heq]
    rw [hn'] at hb'
    simp [validateOne, hie] at hb'
  · intro g hg name hpre
    simp only [isEndpointMetric, Bool.not_eq_false', List.any_eq_true]
    exact ⟨g, hg, hpre⟩

/-- C9 counterexample: `http_req_blocked` belongs to the canonical
global-metric set of the aggregator, yet the validator treats it as an
endpoint metric and emits a breach for it. -/
theorem C9_system_metric_exclusion_counterexample :
    "http_req_blocked" ∈ globalMetricNames ∧
    isGlobalMetric "http_req_blocked" = true ∧
    isEndpointMetric "http_req_blocked" = true ∧
    ValidateThresholds tcC9 [("http_req_blocked", mC9)] ≠ [] := by
  have hsc : sampleCountOf mC9 = 150 := by decide
  refine ⟨by decide, by decide, by decide, ?_⟩
  have hk : ("p(95)", some dt100ms) ∈
      durationChecks (GetThresholdForEndpoint tcC9 "http_req_blocked") := by decide
  have hv : lookupA mC9.values "p(95)" = some 400 := rfl
  have hcond : (durMs dt100ms.value : ℚ) *
      (1 + durTolerance tcC9.options dt100ms / 100) < 400 := by
    rw [show durMs dt100ms.value = 100 from by decide]
    norm_num [durTolerance, dt100ms, tcC9, optsMin10]
  have hbmem : durationBreach tcC9.options "http_req_blocked" (sampleCountOf mC9)
      "p(95)" dt100ms 400 ∈
      checkDurationThresholds tcC9.options "http_req_blocked" mC9
        (GetThresholdForEndpoint tcC9 "http_req_blocked") (sampleCountOf mC9) :=
    (mem_checkDurationThresholds_iff _ _ _ _ _ _).mpr
      ⟨"p(95)", dt100ms, 400, hk, hv, hcond, rfl⟩
  have hvo : durationBreach tcC9.options "http_req_blocked" (sampleCountOf mC9)
      "p(95)" dt100ms 400 ∈ validateOne tcC9 ("http_req_blocked", mC9) := by
    unfold validateOne
    rw [if_neg (by decide), if_neg (by rw [hsc]; decide)]
    exact List.mem_append_left _ hbmem
  have hmem : durationBreach tcC9.options "http_req_blocked" (sampleCountOf mC9)
      "p(95)" dt100ms 400 ∈ ValidateThresholds tcC9 [("http_req_blocked", mC9)] := by
    rw [ValidateThresholds, List.mem_flatMap]
    exact ⟨("http_req_blocked", mC9), by simp, hvo⟩
  exact List.ne_nil_of_mem hmem

/-- Witness for C9: a `vus_max` metric yields no breach, and prefix
exclusion applies to underscore-suffixed names such as `checks_total`. -/
theorem C9_system_metric_exclusion_witness :
    ValidateThresholds tcC9 [("vus_max", mC9)] = [] ∧
    isEndpointMetric "checks_total" = false := by
  constructor
  · have h := (C9_system_metric_exclusion tcC9 [("vus_max", mC9)] "vus_max").1
      (by decide)
    cases hval : ValidateThresholds tcC9 [("vus_max", mC9)] with
    | nil => rfl
    | cons b rest =>
      exfalso
      have hb : b ∈ ValidateThresholds tcC9 [("vus_max", mC9)] := by
        rw [hval]
        exact List.mem_cons_self _ _
      have hne := h b hb
      rw [ValidateThresholds, List.mem_flatMap] at hb
      obtain ⟨⟨n', m'⟩, hmem', hb'⟩ := hb
      have h' := List.mem_singleton.mp hmem'
      rw [h'] at hb'
      exact hne (validateOne_endpoint _ _ _ _ hb')
  · exact (C9_system_metric_exclusion tcC9 [] "checks_total").2 "checks"
      (by decide) "checks_total" (by decide)

end Venom
